import Mathlib

/-!
Verification development for the `zee_api` request-scoped logging subsystem:
a shallow embedding of the configuration-document values, the deep-merge and
auto-filter algorithms, the custom-config-file loader, the context registry
and the per-provider request middleware, with theorems checking the stated
behaviour of each operation.
-/

set_option linter.unusedVariables false

namespace ZeeApi

/-- A Python value as it occurs in the logging configuration documents:
strings, integers, booleans, `None`, lists, insertion-ordered string-keyed
dicts (association lists, mirroring Python dict semantics), and opaque
non-container objects (classes, filter factories) identified by a tag. -/
inductive PyVal where
  | str (s : String)
  | int (n : Int)
  | bool (b : Bool)
  | none
  | list (xs : List PyVal)
  | dict (d : List (String × PyVal))
  | obj (tag : String)

/-- A Python dict with string keys: an insertion-ordered association list.
Python dicts never hold a key twice; well-formed values have `Nodup` keys. -/
abbrev PyDict := List (String × PyVal)

/-- `d[k]` lookup on a string-keyed association list: the value at the first
occurrence of key `k`. -/
def alistGet {α : Type} (d : List (String × α)) (k : String) : Option α :=
  match d with
  | [] => Option.none
  | (k', v) :: rest => if k' = k then some v else alistGet rest k

/-- `k in d` membership test on keys. -/
def alistContains {α : Type} (d : List (String × α)) (k : String) : Bool :=
  match d with
  | [] => false
  | (k', _) :: rest => if k' = k then true else alistContains rest k

/-- `d[k] = v` assignment: replaces the value at an existing key in place
(keeping its position, as Python dicts do) or appends a new entry. -/
def alistSet {α : Type} (d : List (String × α)) (k : String) (v : α) :
    List (String × α) :=
  match d with
  | [] => [(k, v)]
  | (k', v') :: rest =>
      if k' = k then (k', v) :: rest else (k', v') :: alistSet rest k v

/-- `d.pop(k, default)`: the removed value (or the default when the key is
absent) together with the dict after removal of the first occurrence of `k`. -/
def alistPopD {α : Type} (d : List (String × α)) (k : String) (default : α) :
    α × List (String × α) :=
  match d with
  | [] => (default, [])
  | (k', v') :: rest =>
      if k' = k then (v', rest)
      else
        let p := alistPopD rest k default
        (p.1, (k', v') :: p.2)

/-- `d[k]` lookup on a `PyDict`. -/
def dictGet (d : PyDict) (k : String) : Option PyVal := alistGet d k

/-- `k in d` on a `PyDict`. -/
def dictContains (d : PyDict) (k : String) : Bool := alistContains d k

/-- `d[k] = v` on a `PyDict`. -/
def dictSet (d : PyDict) (k : String) (v : PyVal) : PyDict := alistSet d k v

/-- `d.pop(k, default)` on a `PyDict`. -/
def dictPopD (d : PyDict) (k : String) (default : PyVal) : PyVal × PyDict :=
  alistPopD d k default

/-- The key list of a dict, in insertion order. -/
def dictKeys (d : PyDict) : List String := d.map Prod.fst

/-- Python truthiness of a value (`bool(v)`): `False`, `0`, `""`, `None`
and empty containers are falsy, everything else truthy. -/
def pyTruthy : PyVal → Bool
  | .str s => s ≠ ""
  | .int n => n ≠ 0
  | .bool b => b
  | .none => false
  | .list xs => ¬ xs.isEmpty
  | .dict d => ¬ d.isEmpty
  | .obj _ => true

/-- `isinstance(v, dict)`. -/
def isDict : PyVal → Bool
  | .dict _ => true
  | _ => false

/-- `isinstance(v, list)`. -/
def isList : PyVal → Bool
  | .list _ => true
  | _ => false

/-- Value semantics of `deep_merge_dicts(c1, c2)`
(`src/zee_api/utils/deep_merge_dicts.py`): if `c2` is empty return `c1`;
otherwise fold over `c2`'s items into a copy of `c1`, recursing when both
sides hold a dict at the key and replacing the entry wholesale otherwise. -/
def deep_merge_dicts : PyDict → PyDict → PyDict
  | c1, [] => c1
  | c1, (k, v) :: rest =>
      match dictGet c1 k, v with
      | some (.dict d1), .dict d2 =>
          deep_merge_dicts (dictSet c1 k (PyVal.dict (deep_merge_dicts d1 d2))) rest
      | _, _ => deep_merge_dicts (dictSet c1 k v) rest

/-- Lexicographic order on character lists by code point (how Python
compares strings). -/
def charListLe : List Char → List Char → Bool
  | [], _ => true
  | _ :: _, [] => false
  | c :: cs, d :: ds =>
      if c.toNat < d.toNat then true
      else if d.toNat < c.toNat then false
      else charListLe cs ds

/-- String comparison by code points, the order `sorted` uses on names. -/
def strLe (s t : String) : Bool := charListLe s.data t.data

/-- Insert a string into a sorted list, preserving order (helper for
`sortStrings`). -/
def insertSorted (s : String) : List String → List String
  | [] => [s]
  | t :: ts => if strLe s t then s :: t :: ts else t :: insertSorted s ts

/-- `sorted(...)` on a list of strings: ascending code-point order. -/
def sortStrings : List String → List String
  | [] => []
  | s :: ss => insertSorted s (sortStrings ss)

/-- Membership of the string `s` in a Python collection of values:
`s in xs`. Only `str` elements can compare equal to a string. -/
def pyStrMem (s : String) (xs : List PyVal) : Bool :=
  xs.any fun v => match v with | .str t => t = s | _ => false

/-- `set(v)` on a value expected to be a list of names. The set is only ever
subtracted from a set of registered filter-name strings, so the model covers
lists whose elements are strings; any other shape is outside the model. -/
def setOfNames : PyVal → Option (List String)
  | .list xs => xs.mapM fun v => match v with | .str t => some t | _ => Option.none
  | _ => Option.none

/-- The filter names a handler entry already declares: the elements of its
`filters` key when that key holds a list, and nothing otherwise. -/
def declaredFilters (h : PyDict) : List PyVal :=
  match dictGet h "filters" with
  | some (.list xs) => xs
  | _ => []

/-- `all_registered_filter_names − excluded − already_declared`, in the
iteration order of the (deduplicated) registered names. -/
def candidateNames (allNames excluded : List String) (declared : List PyVal) :
    List String :=
  allNames.filter fun n => ¬ excluded.contains n ∧ ¬ pyStrMem n declared

/-- One handler entry of the auto-filter pass of
`LogConfigurator._auto_apply_filters`
(`src/zee_api/extensions/logging/log_configurator.py`): pop `auto_filters`
(default true) and stop if falsy; pop `exclude_filters` (default `[]`); read
`filters`, overwriting a non-list value with `[]`; then append the sorted
missing names when there is anything to write. `Option.none` models a raised
exception (or an `exclude_filters` shape outside the model). -/
def processHandlerExt (allNames : List String) (h : PyDict) : Option PyDict :=
  let p1 := dictPopD h "auto_filters" (.bool true)
  if ¬ pyTruthy p1.1 then some p1.2
  else
    let p2 := dictPopD p1.2 "exclude_filters" (.list [])
    match setOfNames p2.1 with
    | Option.none => Option.none
    | some excluded =>
        let existingV := (dictGet p2.2 "filters").getD (.list [])
        let existing : List PyVal :=
          match existingV with | .list xs => xs | _ => []
        let h3 : PyDict :=
          match existingV with
          | .list _ => p2.2
          | _ => dictSet p2.2 "filters" (.list [])
        let toAdd := candidateNames allNames excluded existing
        if ¬ toAdd.isEmpty ∨ ¬ existing.isEmpty then
          some (dictSet h3 "filters"
            (.list (existing ++ (sortStrings toAdd).map PyVal.str)))
        else
          some h3

/-- One handler entry of the auto-filter pass of `LogConfig._auto_apply_filters`
(`src/zee_api/core/logging/config.py`): identical to `processHandlerExt`
except that a non-list `filters` value is treated as empty without being
overwritten in the handler dict. -/
def processHandlerCore (allNames : List String) (h : PyDict) : Option PyDict :=
  let p1 := dictPopD h "auto_filters" (.bool true)
  if ¬ pyTruthy p1.1 then some p1.2
  else
    let p2 := dictPopD p1.2 "exclude_filters" (.list [])
    match setOfNames p2.1 with
    | Option.none => Option.none
    | some excluded =>
        let existingV := (dictGet p2.2 "filters").getD (.list [])
        let existing : List PyVal :=
          match existingV with | .list xs => xs | _ => []
        let toAdd := candidateNames allNames excluded existing
        if ¬ toAdd.isEmpty ∨ ¬ existing.isEmpty then
          some (dictSet p2.2 "filters"
            (.list (existing ++ (sortStrings toAdd).map PyVal.str)))
        else
          some p2.2

/-- Run a per-handler step over every entry of the `handlers` dict, keeping
names and order (the pass mutates each handler entry in place and never
touches the `handlers` dict itself). A non-dict handler value is a raised
exception (`.pop` on it fails). -/
def mapHandlers (step : PyDict → Option PyDict) :
    List (String × PyVal) → Option (List (String × PyVal))
  | [] => some []
  | (k, v) :: rest =>
      match v with
      | .dict h =>
          match step h, mapHandlers step rest with
          | some h', some rest' => some ((k, PyVal.dict h') :: rest')
          | _, _ => Option.none
      | _ => Option.none

/-- Value semantics of the auto-filter pass, shared shape of
`_auto_apply_filters` in both files: return the document unchanged when
`filters` or `handlers` is absent; otherwise rewrite every handler entry
with the given per-handler step. `Option.none` models a raised exception
(`filters`/`handlers` present but not dicts, or a failing handler step). -/
def autoApplyFiltersWith (step : List String → PyDict → Option PyDict)
    (config : PyDict) : Option PyDict :=
  if ¬ (dictContains config "filters" ∧ dictContains config "handlers") then
    some config
  else
    match dictGet config "filters", dictGet config "handlers" with
    | some (.dict fs), some (.dict hs) =>
        let allNames := (dictKeys fs).dedup
        match mapHandlers (step allNames) hs with
        | some hs' => some (dictSet config "handlers" (.dict hs'))
        | Option.none => Option.none
    | _, _ => Option.none

/-- `LogConfigurator._auto_apply_filters`
(`src/zee_api/extensions/logging/log_configurator.py`). -/
def autoApplyFilters (config : PyDict) : Option PyDict :=
  autoApplyFiltersWith processHandlerExt config

/-- `LogConfig._auto_apply_filters` (`src/zee_api/core/logging/config.py`). -/
def autoApplyFiltersLogConfig (config : PyDict) : Option PyDict :=
  autoApplyFiltersWith processHandlerCore config

/-! ### Custom config file loading and `LogConfig.configure` -/

/-- A single-quote character as a string (used in error messages). -/
def singleQuote : String := String.mk [Char.ofNat 39]

/-- The message of `InvalidConfigFileError(file)`
(`src/zee_api/core/exceptions/invalid_config_file_error.py`). -/
def invalidConfigFileMessage (file : String) : String :=
  "File " ++ singleQuote ++ file ++ singleQuote ++ " is not a valid yaml file"

/-- Result of loading the custom logging-config file: either a document or a
raised `InvalidConfigFileError` with its message. -/
inductive LoadResult where
  | ok (d : PyDict)
  | invalidConfigFile (msg : String)

/-- `_load_custom_config_file(log_path)` in both
`src/zee_api/core/logging/config.py` and
`src/zee_api/extensions/logging/log_configurator.py`. Filesystem and YAML
parsing are abstracted: `fileExists` stands for `os.path.exists` on the
resolved absolute path and `parsed` for `yaml.safe_load` of the file body
(`Option.none` when the file is empty or blank). The error, when raised,
names the original `log_path` argument. -/
def loadCustomConfigFile (logPath : String) (fileExists : Bool)
    (parsed : Option PyVal) : LoadResult :=
  if ¬ fileExists then .ok []
  else
    match parsed with
    | Option.none => .ok []
    | some (.dict d) => .ok d
    | some _ => .invalidConfigFile (invalidConfigFileMessage logPath)

/-- The static `LogConfig.BASE_LOG_CONFIG` literal of
`src/zee_api/core/logging/config.py`. The two filter factory classes are
opaque objects. -/
def LogConfigBase : PyDict :=
  [("version", .int 1),
   ("disable_existing_loggers", .bool false),
   ("formatters", .dict
     [("standard", .dict
        [("format", .str
          "[%(asctime)s][%(levelname)s][trace_id: %(trace_id)s][%(name)s]: %(message)s")]),
      ("access", .dict
        [("format", .str
          "[%(asctime)s][%(levelname)s][ACCESS][trace_id: %(trace_id)s][response_time_ms: %(response_time_ms)s][%(name)s]: %(message)s")])]),
   ("filters", .dict
     [("add_trace_id", .dict [("()", .obj "TraceIdLogFilter")]),
      ("response_time_filter", .dict [("()", .obj "ResponseTimeLogFilter")])]),
   ("handlers", .dict
     [("console", .dict
        [("class", .str "logging.StreamHandler"),
         ("formatter", .str "standard"),
         ("level", .str "INFO"),
         ("filters", .list [.str "response_time_filter", .str "add_trace_id"])]),
      ("access_console", .dict
        [("class", .str "logging.StreamHandler"),
         ("formatter", .str "access"),
         ("level", .str "INFO"),
         ("filters", .list [.str "response_time_filter", .str "add_trace_id"])])]),
   ("loggers", .dict
     [("uvicorn", .dict
        [("level", .str "INFO"),
         ("handlers", .list [.str "console"]),
         ("propagate", .bool false)]),
      ("uvicorn.error", .dict
        [("level", .str "INFO"),
         ("handlers", .list [.str "console"]),
         ("propagate", .bool false)]),
      ("uvicorn.access", .dict
        [("level", .str "INFO"),
         ("handlers", .list [.str "access_console"]),
         ("propagate", .bool false)])]),
   ("root", .dict
     [("level", .str "INFO"),
      ("handlers", .list [.str "console"])])]

/-- A side effect on the process logging backend. -/
inductive BackendEffect where
  | dictConfig (d : PyDict)
  | captureWarnings (b : Bool)

/-- `LogConfig.configure(extra, apply)` (`src/zee_api/core/logging/config.py`):
merge the static base with the custom document loaded from
`settings.log_config_path` (passed here as `custom`, the result of
`_load_custom_config_file`), merge the programmatic `extra` on top when it is
truthy, run the auto-filter pass, and apply the result to the backend when
requested. Returns the document together with the backend effects performed;
`Option.none` models an exception escaping from the auto-filter pass. -/
def LogConfig.configure (custom : PyDict) (extra : Option PyDict)
    (apply : Bool) : Option (PyDict × List BackendEffect) :=
  let merged := deep_merge_dicts LogConfigBase custom
  let merged2 :=
    match extra with
    | some e => if pyTruthy (.dict e) then deep_merge_dicts merged e else merged
    | Option.none => merged
  match autoApplyFiltersLogConfig merged2 with
  | some m =>
      some (m, if apply then [.dictConfig m, .captureWarnings true] else [])
  | Option.none => Option.none

/-! ### Requests, context providers and the generated middleware -/

/-- The request abstraction the providers consume: a header map with
case-insensitive lookup and a mutable per-request attribute bag
(`request.state`). Context values are strings (header values, generated
UUID strings and the string defaults). -/
structure Request where
  headers : List (String × String)
  state : List (String × String)

/-- ASCII lowercasing of one character, as header names are lowercased. -/
def charLower (c : Char) : Char :=
  if 65 ≤ c.toNat ∧ c.toNat ≤ 90 then Char.ofNat (c.toNat + 32) else c

/-- `str.lower()` on an (ASCII) header name. -/
def pyLower (s : String) : String := String.mk (s.data.map charLower)

/-- `request.headers.get(key)`: case-insensitive header lookup (starlette
headers compare keys lowercased). -/
def headersGet (hs : List (String × String)) (key : String) : Option String :=
  match hs with
  | [] => Option.none
  | (k, v) :: rest =>
      if pyLower k = pyLower key then some v else headersGet rest key

/-- `response.headers[key] = value`: replace an existing header (matched
case-insensitively, keeping its position) or append. -/
def headersSet (hs : List (String × String)) (key value : String) :
    List (String × String) :=
  match hs with
  | [] => [(key, value)]
  | (k, v) :: rest =>
      if pyLower k = pyLower key then (k, value) :: rest
      else (k, v) :: headersSet rest key value

/-- `getattr(request.state, attr, default)` lookup in the attribute bag. -/
def stateGet (st : List (String × String)) (attr : String) : Option String :=
  match st with
  | [] => Option.none
  | (k, v) :: rest => if k = attr then some v else stateGet rest attr

/-- A `LogContext` provider (`src/zee_api/core/logging/context/log_context.py`):
a context-variable name, a default value, the request-extraction rule and the
optional response-decoration rule (a no-op by default). -/
structure LogContext where
  contextVarName : String
  defaultValue : String
  extractFromRequest : Request → String
  prepareResponse : List (String × String) → String → List (String × String)

/-- `CorrelationIdContext.extract_from_request`
(`src/zee_api/core/logging/context/builtins/correlation_id_context.py`):
`request.headers.get("x-correlation-id", str(uuid.uuid4()))`. `fresh` stands
for the `str(uuid.uuid4())` value generated during the call. -/
def correlationExtract (fresh : String) (req : Request) : String :=
  (headersGet req.headers "x-correlation-id").getD fresh

/-- `RequestIdContext.extract_from_request`
(`src/zee_api/core/logging/context/builtins/request_id_context.py`). -/
def requestIdExtract (fresh : String) (req : Request) : String :=
  (headersGet req.headers "x-request-id").getD fresh

/-- `TraceIdContext.extract_from_request`
(`src/zee_api/core/logging/context/builtins/trace_id_context.py`):
`request.headers.get(self.header_name.lower(), str(uuid.uuid4()))`. -/
def traceIdExtract (headerName : String) (fresh : String) (req : Request) :
    String :=
  (headersGet req.headers (pyLower headerName)).getD fresh

/-- `UserIdContext.extract_from_request`
(`src/zee_api/extensions/logging/context/builtins/user_id_context.py`):
`getattr(request.state, "user_id", self.default_value)`. -/
def userIdExtract (defaultValue : String) (req : Request) : String :=
  (stateGet req.state "user_id").getD defaultValue

/-- The `CorrelationIdContext` provider instance; `fresh` is the
`str(uuid.uuid4())` for the call in which extraction happens. -/
def CorrelationIdContext (fresh : String) : LogContext :=
  { contextVarName := "correlation_id"
    defaultValue := "-"
    extractFromRequest := correlationExtract fresh
    prepareResponse := fun hdrs v => headersSet hdrs "X-Correlation-Id" v }

/-- The `RequestIdContext` provider instance. -/
def RequestIdContext (fresh : String) : LogContext :=
  { contextVarName := "request_id"
    defaultValue := "-"
    extractFromRequest := requestIdExtract fresh
    prepareResponse := fun hdrs v => headersSet hdrs "X-Request-Id" v }

/-- The `TraceIdContext` provider instance (header name configurable,
default `X-Trace-Id`). -/
def TraceIdContext (headerName : String) (fresh : String) : LogContext :=
  { contextVarName := "trace_id"
    defaultValue := "-"
    extractFromRequest := traceIdExtract headerName fresh
    prepareResponse := fun hdrs v => headersSet hdrs headerName v }

/-- The `UserIdContext` provider instance (default `"anonymous"`); its
`prepare_response` is the base-class no-op. -/
def UserIdContext (defaultValue : String) : LogContext :=
  { contextVarName := "user_id"
    defaultValue := defaultValue
    extractFromRequest := userIdExtract defaultValue
    prepareResponse := fun hdrs _ => hdrs }

/-- Outcome of the downstream chain (`call_next`): a response with its header
map, or a raised exception. -/
inductive Outcome where
  | success (respHeaders : List (String × String))
  | failure (exc : String)

/-- The observable result of one `ContextMiddleware.dispatch` run: the
outcome handed back upstream, the provider's context-variable value after
the middleware returns control, and the value stored on `request.state`. -/
structure DispatchResult where
  outcome : Outcome
  slot : String
  requestStateValue : String

/-- `ContextMiddleware.dispatch`
(`src/zee_api/core/logging/context/log_context.py`, lines 56-73): extract the
value, store it on `request.state` and in the context variable, invoke the
downstream chain, and on a successful response decorate it and reset the
slot before returning. When `call_next` raises, the exception propagates
immediately: the statements after the `await` (decoration and
`context.reset()`) do not run, so the slot keeps the bound value. -/
def dispatch (ctx : LogContext) (req : Request) (callNext : Outcome) :
    DispatchResult :=
  let value := ctx.extractFromRequest req
  match callNext with
  | .success respHeaders =>
      { outcome := .success (ctx.prepareResponse respHeaders value)
        slot := ctx.defaultValue
        requestStateValue := value }
  | .failure e =>
      { outcome := .failure e
        slot := value
        requestStateValue := value }

/-! ### The context registry -/

/-- The registry's backing store `self._contexts`: an insertion-ordered
mapping of names to providers. -/
abbrev Registry := List (String × LogContext)

/-- `LogContextRegistry.register(name, context)`: `self._contexts[name] =
context`, replacing in place on an existing name or appending a new one. -/
def registerCtx (reg : Registry) (name : String) (ctx : LogContext) :
    Registry :=
  alistSet reg name ctx

/-- `LogContextRegistry.get(name)`. -/
def registryGet (reg : Registry) (name : String) : Option LogContext :=
  alistGet reg name

/-- A Python class object found in a builtin module, as inspected by
`register_builtin`: whether it subclasses `LogContext`, whether it is
`LogContext` itself, and the provider obtained by instantiating it with no
arguments. -/
structure PyClass where
  className : String
  isLogContextSubclass : Bool
  isLogContextItself : Bool
  instantiate : LogContext

/-- A raised Python exception: a `ValueError` or a plain `Exception`. -/
inductive PyError where
  | valueError (msg : String)
  | exception (msg : String)

/-- The classes of a builtin module that pass
`issubclass(c, LogContext) and c is not LogContext`. -/
def eligibleContexts (members : List PyClass) : List PyClass :=
  members.filter fun c => c.isLogContextSubclass ∧ ¬ c.isLogContextItself

/-- `LogContextRegistry.register_builtin(context_name)`
(`src/zee_api/extensions/logging/context/log_context_registry.py`):
load the builtin module `{context_name}_context` (`modules` maps module
names to their class members; `Option.none` is `ModuleNotFoundError`, turned
into a `ValueError` naming the builtin), keep the classes that subclass
`LogContext` without being `LogContext` itself, fail when none or several
remain, and otherwise instantiate the single class with no arguments and
register it under `context_name`. -/
def registerBuiltin (reg : Registry) (modules : String → Option (List PyClass))
    (contextName : String) : Except PyError Registry :=
  match modules (contextName ++ "_context") with
  | Option.none =>
      .error (.valueError
        ("Builtin " ++ singleQuote ++ contextName ++ singleQuote ++ " not found"))
  | some members =>
      match eligibleContexts members with
      | [] => .error (.exception "Not found context with this name")
      | [c] => .ok (registerCtx reg contextName c.instantiate)
      | _ :: _ :: _ => .error (.exception "Multiple contexts found with this name")

/-! ### Format-string construction -/

/-- The two format templates of `LogConfigurator._build_format`. -/
inductive FormatType where
  | standard
  | access
  deriving DecidableEq

/-- `LogConfigurator._build_format(type)`
(`src/zee_api/extensions/logging/log_configurator.py`): start from the
time/level prefix (plus a literal `[ACCESS]` tag for the access template),
append one `[name: %(name)s]` tag per registered context in iteration order
of `self._context_registry.contexts.keys()` (passed here as `names`), append
the `response_time_ms` tag for the access template when a context named
`response_time` is registered, and close with the logger-name/message
suffix. -/
def buildFormat (names : List String) (ty : FormatType) : String :=
  let base := "[%(asctime)s][%(levelname)s]"
  let base := if ty = .access then base ++ "[ACCESS]" else base
  let base := names.foldl
    (fun b name => b ++ "[" ++ name ++ ": %(" ++ name ++ ")s]") base
  let base :=
    if ty = .access ∧ names.contains "response_time" then
      base ++ "[response_time_ms: %(response_time_ms)s]"
    else base
  base ++ "[%(name)s]: %(message)s"

/-- `LogContextRegistry.create_filter_config()`: one
`"{name}_filter" → filter factory` entry per registered context, in registry
iteration order; the factory closes over its own context. -/
def createFilterConfig (reg : Registry) : List (String × LogContext) :=
  reg.map fun p => (p.1 ++ "_filter", p.2)

/-- `LogContextRegistry.get_all_middlewares()`: one middleware per context,
keyed by the context's name, in registry iteration order. The generated
middleware's behaviour is `dispatch` applied to that context. -/
def getAllMiddlewares (reg : Registry) : List (String × LogContext) :=
  reg.map fun p => (p.1, p.2)

/-! ### Heap model of the stateful `LogConfigurator`

The extensions configurator (`src/zee_api/extensions/logging/log_configurator.py`)
caches its generated base document in `self._base_config`, `deep_merge_dicts`
copies only the top level of its first argument, and `_auto_apply_filters`
mutates handler dicts in place.  To reason about what one `configure` call
can observe of an earlier one, dicts are modelled as heap objects addressed
by allocation index; lists here are immutable values (the code never mutates
a list in place: `existing + sorted(...)` builds a new list). -/

/-- A heap address: the allocation index of a dict object. -/
abbrev HAddr := Nat

/-- A Python value in the heap model; dicts are references. -/
inductive HVal where
  | str (s : String)
  | int (n : Int)
  | bool (b : Bool)
  | none
  | list (xs : List HVal)
  | obj (tag : String)
  | dictRef (a : HAddr)

/-- The entry list of one heap-allocated dict. -/
abbrev HDict := List (String × HVal)

/-- The heap: dict number `a` lives at index `a`. -/
abbrev Heap := List HDict

/-- Dereference a dict address. -/
def heapRead (hp : Heap) (a : HAddr) : HDict := (hp.get? a).getD []

/-- Overwrite the dict at an address (in-place mutation). -/
def heapWrite (hp : Heap) (a : HAddr) (d : HDict) : Heap := hp.set a d

/-- Allocate a fresh dict object. -/
def heapAlloc (hp : Heap) (d : HDict) : Heap × HAddr := (hp ++ [d], hp.length)

/-- Python truthiness in the heap model (a dict is truthy when non-empty). -/
def hTruthy (hp : Heap) : HVal → Bool
  | .str s => s ≠ ""
  | .int n => n ≠ 0
  | .bool b => b
  | .none => false
  | .list xs => ¬ xs.isEmpty
  | .obj _ => true
  | .dictRef a => ¬ (heapRead hp a).isEmpty

/-- Heap semantics of `deep_merge_dicts(c1, c2)`: an empty `c2` returns the
`c1` object itself; otherwise the result is a fresh shallow copy of `c1`
(`c1.copy()`, sharing all child objects) into which `c2`'s items are folded
in order, recursing when both sides hold dicts at a key and overwriting the
result entry otherwise.  `fuel` bounds the recursion depth (`Option.none` =
fuel exhausted; every concrete run below uses ample fuel). -/
def deepMergeH : Nat → Heap → HAddr → HAddr → Option (Heap × HAddr)
  | 0, _, _, _ => Option.none
  | Nat.succ fuel, hp, a1, a2 =>
      let c2 := heapRead hp a2
      if c2.isEmpty then some (hp, a1)
      else
        let p := heapAlloc hp (heapRead hp a1)
        let r := p.2
        (c2.foldlM (fun (hpAcc : Heap) (kv : String × HVal) =>
          match alistGet (heapRead hpAcc r) kv.1, kv.2 with
          | some (.dictRef d1), .dictRef d2 =>
              (deepMergeH fuel hpAcc d1 d2).map (fun (q : Heap × HAddr) =>
                heapWrite q.1 r (alistSet (heapRead q.1 r) kv.1 (.dictRef q.2)))
          | _, _ =>
              some (heapWrite hpAcc r (alistSet (heapRead hpAcc r) kv.1 kv.2)))
          p.1).map (fun hp2 => (hp2, r))

/-- `set(v)` for `exclude_filters` in the heap model (lists of strings). -/
def hSetOfNames : HVal → Option (List String)
  | .list xs => xs.mapM fun v => match v with | .str t => some t | _ => Option.none
  | _ => Option.none

/-- One handler entry of `LogConfigurator._auto_apply_filters` in the heap
model: the handler dict at `ha` is mutated in place (pops and `filters`
assignment), exactly as `processHandlerExt` describes on values. -/
def processHandlerHExt (allNames : List String) (hp : Heap) (ha : HAddr) :
    Option Heap :=
  let h := heapRead hp ha
  let p1 := alistPopD h "auto_filters" (HVal.bool true)
  if ¬ hTruthy hp p1.1 then some (heapWrite hp ha p1.2)
  else
    let p2 := alistPopD p1.2 "exclude_filters" (HVal.list [])
    match hSetOfNames p2.1 with
    | Option.none => Option.none
    | some excluded =>
        let existingV := (alistGet p2.2 "filters").getD (HVal.list [])
        let existing : List HVal :=
          match existingV with | .list xs => xs | _ => []
        let h3 : HDict :=
          match existingV with
          | .list _ => p2.2
          | _ => alistSet p2.2 "filters" (.list [])
        let toAdd := allNames.filter fun n =>
          ¬ excluded.contains n ∧
          ¬ (existing.any fun v => match v with | .str t => t = n | _ => false)
        let h4 : HDict :=
          if ¬ toAdd.isEmpty ∨ ¬ existing.isEmpty then
            alistSet h3 "filters"
              (.list (existing ++ (sortStrings toAdd).map HVal.str))
          else h3
        some (heapWrite hp ha h4)

/-- The handler loop of `_auto_apply_filters` in the heap model: process the
snapshot of `config["handlers"].items()`; a non-dict handler value raises. -/
def autoApplyHandlersH (allNames : List String) :
    Heap → List (String × HVal) → Option Heap
  | hp, [] => some hp
  | hp, (_, v) :: rest =>
      match v with
      | .dictRef ha =>
          match processHandlerHExt allNames hp ha with
          | some hp2 => autoApplyHandlersH allNames hp2 rest
          | Option.none => Option.none
      | _ => Option.none

/-- `LogConfigurator._auto_apply_filters` in the heap model: returns the same
document object, with handler dicts mutated in place. -/
def autoApplyFiltersH (hp : Heap) (a : HAddr) : Option (Heap × HAddr) :=
  let cfg := heapRead hp a
  if ¬ (alistContains cfg "filters" ∧ alistContains cfg "handlers") then
    some (hp, a)
  else
    match alistGet cfg "filters", alistGet cfg "handlers" with
    | some (.dictRef fa), some (.dictRef hsa) =>
        let allNames := ((heapRead hp fa).map Prod.fst).dedup
        (autoApplyHandlersH allNames hp (heapRead hp hsa)).map
          (fun hp2 => (hp2, a))
    | _, _ => Option.none

mutual

/-- Allocate a pure value into the heap (every dict display in the Python
source allocates a fresh dict object). -/
def hAllocVal : Heap → PyVal → Heap × HVal
  | hp, .str s => (hp, .str s)
  | hp, .int n => (hp, .int n)
  | hp, .bool b => (hp, .bool b)
  | hp, .none => (hp, .none)
  | hp, .obj t => (hp, .obj t)
  | hp, .list xs => let p := hAllocValList hp xs; (p.1, .list p.2)
  | hp, .dict d =>
      let p := hAllocValEntries hp d
      let q := heapAlloc p.1 p.2
      (q.1, .dictRef q.2)

/-- Allocate every element of a list. -/
def hAllocValList : Heap → List PyVal → Heap × List HVal
  | hp, [] => (hp, [])
  | hp, x :: xs =>
      let p := hAllocVal hp x
      let q := hAllocValList p.1 xs
      (q.1, p.2 :: q.2)

/-- Allocate every entry of a dict body. -/
def hAllocValEntries : Heap → List (String × PyVal) → Heap × List (String × HVal)
  | hp, [] => (hp, [])
  | hp, (k, v) :: rest =>
      let p := hAllocVal hp v
      let q := hAllocValEntries p.1 rest
      (q.1, (k, p.2) :: q.2)

end

/-- Allocate a whole document, returning the address of its top dict. -/
def hAllocDictAddr (hp : Heap) (d : PyDict) : Heap × HAddr :=
  let p := hAllocValEntries hp d
  heapAlloc p.1 p.2

/-- The document `LogConfigurator.BASE_LOG_CONFIG` builds on first use, as a
pure value (`contextNames` are `self._context_registry.contexts.keys()`;
each generated filter entry holds an opaque factory closing over its own
context's filter instance). -/
def baseLogConfigDoc (contextNames : List String) : PyDict :=
  [("version", .int 1),
   ("disable_existing_loggers", .bool false),
   ("formatters", .dict
     [("standard", .dict [("format", .str (buildFormat contextNames .standard))]),
      ("access", .dict [("format", .str (buildFormat contextNames .access))])]),
   ("filters", .dict (contextNames.map fun n =>
      (n ++ "_filter", PyVal.dict [("()", PyVal.obj ("filter_factory_" ++ n))]))),
   ("handlers", .dict
     [("console", .dict
        [("class", .str "logging.StreamHandler"),
         ("formatter", .str "standard"),
         ("level", .str "INFO")]),
      ("access_console", .dict
        [("class", .str "logging.StreamHandler"),
         ("formatter", .str "access"),
         ("level", .str "INFO")])]),
   ("loggers", .dict
     [("uvicorn", .dict
        [("level", .str "INFO"),
         ("handlers", .list [.str "console"]),
         ("propagate", .bool false)]),
      ("uvicorn.error", .dict
        [("level", .str "INFO"),
         ("handlers", .list [.str "console"]),
         ("propagate", .bool false)]),
      ("uvicorn.access", .dict
        [("level", .str "INFO"),
         ("handlers", .list [.str "access_console"]),
         ("propagate", .bool false)])]),
   ("root", .dict
     [("level", .str "INFO"),
      ("handlers", .list [.str "console"])])]

/-- The mutable state of one `LogConfigurator` instance: its heap of dict
objects and the cached `self._base_config` address. -/
structure ConfiguratorState where
  heap : Heap
  baseConfig : Option HAddr

/-- The `BASE_LOG_CONFIG` property: build and cache the base document on
first access, return the cached object afterwards. -/
def getBaseLogConfigH (contextNames : List String) (st : ConfiguratorState) :
    ConfiguratorState × HAddr :=
  match st.baseConfig with
  | some a => (st, a)
  | Option.none =>
      let q := hAllocDictAddr st.heap (baseLogConfigDoc contextNames)
      ({ heap := q.1, baseConfig := some q.2 }, q.2)

/-- A backend effect in the heap model (the applied document's address). -/
inductive BackendEffectH where
  | dictConfig (a : HAddr)
  | captureWarnings (b : Bool)

/-- `LogConfigurator.configure(extra, apply)`
(`src/zee_api/extensions/logging/log_configurator.py`): take the (cached)
base document, merge `self.config.model_extra or {}` (`modelExtra`, a dict
built for the call) over it, merge a truthy `extra` on top, run the
auto-filter pass and optionally apply.  Returns the new configurator state,
the returned document's address and the backend effects performed. -/
def configureH (contextNames : List String) (st : ConfiguratorState)
    (modelExtra : PyDict) (extra : Option PyDict) (apply : Bool) (fuel : Nat) :
    Option (ConfiguratorState × HAddr × List BackendEffectH) :=
  let p := getBaseLogConfigH contextNames st
  let q := hAllocDictAddr p.1.heap modelExtra
  match deepMergeH fuel q.1 p.2 q.2 with
  | Option.none => Option.none
  | some (hp1, mA) =>
      let step2 : Option (Heap × HAddr) :=
        match extra with
        | some e =>
            if e.isEmpty then some (hp1, mA)
            else
              let r := hAllocDictAddr hp1 e
              deepMergeH fuel r.1 mA r.2
        | Option.none => some (hp1, mA)
      match step2 with
      | Option.none => Option.none
      | some (hp2, m2A) =>
          match autoApplyFiltersH hp2 m2A with
          | some (hp3, rA) =>
              some ({ heap := hp3, baseConfig := p.1.baseConfig }, rA,
                if apply then [.dictConfig rA, .captureWarnings true] else [])
          | Option.none => Option.none

/-- Follow a key path through dict references, starting from a document
address; the last key's value is returned as is. -/
def hGetPath (hp : Heap) (a : HAddr) : List String → Option HVal
  | [] => some (.dictRef a)
  | [k] => alistGet (heapRead hp a) k
  | k :: rest =>
      match alistGet (heapRead hp a) k with
      | some (.dictRef a2) => hGetPath hp a2 rest
      | _ => Option.none

/-- The backend effects of a `configureH` outcome (none when the call
raised). -/
def configEffects (r : Option (ConfiguratorState × HAddr × List BackendEffectH)) :
    List BackendEffectH :=
  match r with
  | some o => o.2.2
  | Option.none => []

/-! ## Association-list lemmas -/

theorem alistGet_set_self {α : Type} (d : List (String × α)) (k : String) (v : α) :
    alistGet (alistSet d k v) k = some v := by
  induction d with
  | nil => simp [alistSet, alistGet]
  | cons p rest ih =>
      obtain ⟨k', v'⟩ := p
      by_cases h : k' = k
      · simp [alistSet, alistGet, h]
      · simp [alistSet, alistGet, h, ih]

theorem alistGet_set_ne {α : Type} (d : List (String × α)) (k k2 : String) (v : α)
    (h : k2 ≠ k) : alistGet (alistSet d k v) k2 = alistGet d k2 := by
  induction d with
  | nil => simp [alistSet, alistGet, Ne.symm h]
  | cons p rest ih =>
      obtain ⟨k', v'⟩ := p
      by_cases hk : k' = k
      · subst hk
        simp only [alistSet, if_pos rfl]
        by_cases hk2 : k' = k2
        · exact absurd hk2.symm h
        · simp [alistGet, hk2]
      · simp only [alistSet, if_neg hk, alistGet]
        by_cases hk2 : k' = k2
        · simp [hk2]
        · simp [hk2, ih]

theorem alistContains_eq_false_iff {α : Type} (d : List (String × α)) (k : String) :
    alistContains d k = false ↔ k ∉ d.map Prod.fst := by
  induction d with
  | nil => simp [alistContains]
  | cons p rest ih =>
      obtain ⟨k', v'⟩ := p
      by_cases h : k' = k
      · subst h
        simp [alistContains]
      · simp [alistContains, h, ih, Ne.symm h]

theorem alistContains_eq_true_iff {α : Type} (d : List (String × α)) (k : String) :
    alistContains d k = true ↔ k ∈ d.map Prod.fst := by
  induction d with
  | nil => simp [alistContains]
  | cons p rest ih =>
      obtain ⟨k', v'⟩ := p
      by_cases h : k' = k
      · subst h
        simp [alistContains]
      · simp [alistContains, h, ih, Ne.symm h]

theorem alistSet_keys_of_contains {α : Type} (d : List (String × α)) (k : String)
    (v : α) (h : alistContains d k = true) :
    (alistSet d k v).map Prod.fst = d.map Prod.fst := by
  induction d with
  | nil => simp [alistContains] at h
  | cons p rest ih =>
      obtain ⟨k', v'⟩ := p
      by_cases hk : k' = k
      · simp [alistSet, hk]
      · simp only [alistContains, hk, if_false] at h
        simp [alistSet, hk, ih h]

theorem alistGet_pop_ne {α : Type} (d : List (String × α)) (k k2 : String)
    (dft : α) (h : k2 ≠ k) :
    alistGet (alistPopD d k dft).2 k2 = alistGet d k2 := by
  induction d with
  | nil => simp [alistPopD]
  | cons p rest ih =>
      obtain ⟨k', v'⟩ := p
      by_cases hk : k' = k
      · subst hk
        simp [alistPopD, alistGet, Ne.symm h]
      · by_cases hk2 : k' = k2 <;> simp [alistPopD, alistGet, hk, hk2, ih, h]

theorem alistContains_pop_ne {α : Type} (d : List (String × α)) (k k2 : String)
    (dft : α) (h : k2 ≠ k) :
    alistContains (alistPopD d k dft).2 k2 = alistContains d k2 := by
  induction d with
  | nil => simp [alistPopD]
  | cons p rest ih =>
      obtain ⟨k', v'⟩ := p
      by_cases hk : k' = k
      · subst hk
        simp [alistPopD, alistContains, Ne.symm h]
      · by_cases hk2 : k' = k2 <;> simp [alistPopD, alistContains, hk, hk2, ih, h]

theorem alistPopD_keys_subset {α : Type} (d : List (String × α)) (k : String)
    (dft : α) : ∀ k2, k2 ∈ (alistPopD d k dft).2.map Prod.fst →
      k2 ∈ d.map Prod.fst := by
  induction d with
  | nil => simp [alistPopD]
  | cons p rest ih =>
      obtain ⟨k', v'⟩ := p
      intro k2 hmem
      by_cases hk : k' = k
      · simp [alistPopD, hk] at hmem
        simp [hmem]
      · simp only [alistPopD, hk, if_false, List.map_cons, List.mem_cons] at hmem
        rcases hmem with h1 | h2
        · simp [h1]
        · simp [ih k2 h2]

theorem alistContains_pop_self {α : Type} (d : List (String × α)) (k : String)
    (dft : α) (hnd : (d.map Prod.fst).Nodup) :
    alistContains (alistPopD d k dft).2 k = false := by
  induction d with
  | nil => simp [alistPopD, alistContains]
  | cons p rest ih =>
      obtain ⟨k', v'⟩ := p
      simp only [List.map_cons, List.nodup_cons] at hnd
      by_cases hk : k' = k
      · subst hk
        simp only [alistPopD, if_pos rfl]
        rw [alistContains_eq_false_iff]
        exact hnd.1
      · simp [alistPopD, alistContains, hk, ih hnd.2]

theorem alistContains_set_ne {α : Type} (d : List (String × α)) (k k2 : String)
    (v : α) (h : k2 ≠ k) :
    alistContains (alistSet d k v) k2 = alistContains d k2 := by
  induction d with
  | nil => simp [alistSet, alistContains, Ne.symm h]
  | cons p rest ih =>
      obtain ⟨k', v'⟩ := p
      by_cases hk : k' = k
      · subst hk
        simp [alistSet, alistContains]
      · by_cases hk2 : k' = k2 <;> simp [alistSet, alistContains, hk, hk2, ih, h]

/-! ## Deep-merge lemmas and claim C4 -/

/-- The value `deep_merge_dicts` stores for one override entry: the recursive
merge when both sides hold dicts, the override value otherwise. -/
def mergeValue (cur : Option PyVal) (v : PyVal) : PyVal :=
  match cur, v with
  | some (.dict d1), .dict d2 => .dict (deep_merge_dicts d1 d2)
  | _, _ => v

theorem deep_merge_dicts_nil (X : PyDict) : deep_merge_dicts X [] = X := by
  simp [deep_merge_dicts]

theorem deep_merge_dicts_cons (X : PyDict) (k : String) (v : PyVal)
    (rest : PyDict) :
    deep_merge_dicts X ((k, v) :: rest) =
      deep_merge_dicts (dictSet X k (mergeValue (dictGet X k) v)) rest := by
  cases hx : dictGet X k with
  | none => cases v <;> simp [deep_merge_dicts, hx, mergeValue]
  | some w => cases w <;> cases v <;> simp [deep_merge_dicts, hx, mergeValue]

theorem deep_merge_dicts_frame (Y X : PyDict) (k : String)
    (h : k ∉ Y.map Prod.fst) :
    dictGet (deep_merge_dicts X Y) k = dictGet X k := by
  induction Y generalizing X with
  | nil => rw [deep_merge_dicts_nil]
  | cons p rest ih =>
      obtain ⟨k', v'⟩ := p
      simp only [List.map_cons, List.mem_cons, not_or] at h
      rw [deep_merge_dicts_cons, ih _ h.2]
      exact alistGet_set_ne X k' k _ h.1

theorem deep_merge_dicts_lookup (Y X : PyDict) (k : String) (v : PyVal)
    (hnd : (Y.map Prod.fst).Nodup) (hmem : (k, v) ∈ Y) :
    dictGet (deep_merge_dicts X Y) k = some (mergeValue (dictGet X k) v) := by
  induction Y generalizing X with
  | nil => cases hmem
  | cons p rest ih =>
      obtain ⟨k', v'⟩ := p
      simp only [List.map_cons, List.nodup_cons] at hnd
      rcases List.mem_cons.mp hmem with h1 | h2
      · injection h1 with hk hv
        subst hk
        subst hv
        rw [deep_merge_dicts_cons,
          deep_merge_dicts_frame rest _ k hnd.1]
        exact alistGet_set_self X k _
      · have hmem2 : k ∈ rest.map Prod.fst := List.mem_map.mpr ⟨(k, v), h2, rfl⟩
        have hkne : k' ≠ k := by
          intro hh
          rw [hh] at hnd
          exact hnd.1 hmem2
        rw [deep_merge_dicts_cons, ih _ hnd.2 h2]
        have : dictGet (dictSet X k' (mergeValue (dictGet X k') v')) k
            = dictGet X k := alistGet_set_ne X k' k _ (fun hh => hkne hh.symm)
        rw [this]

/-- C4.  `merge(X, {}) = X`; for every entry `(k, v)` of the override `Y`
(whose keys, as a Python dict, are distinct): when both `X[k]` and `v` are
dicts the merge recurses on them, otherwise `v` wholly replaces `X[k]` —
in particular any list override replaces the base value; and keys absent
from `Y` keep their base values, so the merge is right-biased exactly where
`Y` overlaps `X`. -/
theorem deep_merge_dicts_spec (X Y : PyDict) (hY : (Y.map Prod.fst).Nodup) :
    deep_merge_dicts X [] = X
    ∧ (∀ k v, (k, v) ∈ Y →
        dictGet (deep_merge_dicts X Y) k = some (mergeValue (dictGet X k) v))
    ∧ (∀ k v, (k, v) ∈ Y → isDict v = false →
        dictGet (deep_merge_dicts X Y) k = some v)
    ∧ (∀ k, k ∉ Y.map Prod.fst →
        dictGet (deep_merge_dicts X Y) k = dictGet X k) := by
  refine ⟨deep_merge_dicts_nil X, ?_, ?_, ?_⟩
  · intro k v hmem
    exact deep_merge_dicts_lookup Y X k v hY hmem
  · intro k v hmem hnotdict
    rw [deep_merge_dicts_lookup Y X k v hY hmem]
    congr 1
    cases v <;> simp [isDict] at hnotdict ⊢ <;>
      cases hx : dictGet X k with
      | none => rfl
      | some w => cases w <;> rfl
  · intro k hk
    exact deep_merge_dicts_frame Y X k hk

/-- C2 witness support: applying `deep_merge_dicts_spec` at concrete dicts. -/
theorem deep_merge_dicts_spec_witness :
    ((([("a", PyVal.dict [("x", PyVal.int 1)]),
        ("l", PyVal.list [PyVal.int 1, PyVal.int 2])] : PyDict).map
          Prod.fst).Nodup → True)
    ∧ dictGet
        (deep_merge_dicts
          [("a", PyVal.dict [("x", PyVal.int 1)]),
           ("l", PyVal.list [PyVal.int 1, PyVal.int 2])]
          [("l", PyVal.list [PyVal.int 3])])
        "l" = some (PyVal.list [PyVal.int 3]) := by
  constructor
  · intro h
    trivial
  · exact (deep_merge_dicts_spec
      [("a", PyVal.dict [("x", PyVal.int 1)]),
       ("l", PyVal.list [PyVal.int 1, PyVal.int 2])]
      [("l", PyVal.list [PyVal.int 3])] (by simp)).2.2.1
      "l" (PyVal.list [PyVal.int 3]) (by simp) (by simp [isDict])

/-! ## Claim C2: `configure` is the layered merge plus the auto-filter pass -/

/-- C2.  For every call `configure(extra, apply)` of `LogConfig`
(`src/zee_api/core/logging/config.py`), the returned document is the
auto-filter pass applied to
`merge(merge(BASE_LOG_CONFIG, custom_file_document), extra)` — the code
skips the second merge for a falsy `extra`, which coincides with merging an
empty dict.  `custom` is the document `_load_custom_config_file` returned
for `settings.log_config_path`, and the `apply` flag does not change the
returned document. -/
theorem configure_three_way_merge (custom : PyDict) (extra : Option PyDict)
    (apply : Bool) :
    (LogConfig.configure custom extra apply).map Prod.fst =
      autoApplyFiltersLogConfig
        (deep_merge_dicts (deep_merge_dicts LogConfigBase custom)
          (extra.getD [])) := by
  have hcase : ∀ m : PyDict,
      (match autoApplyFiltersLogConfig m with
        | some x =>
            some (x, if apply then
              [BackendEffect.dictConfig x, BackendEffect.captureWarnings true]
              else [])
        | Option.none =>
            (Option.none : Option (PyDict × List BackendEffect))).map Prod.fst
      = autoApplyFiltersLogConfig m := by
    intro m
    cases h : autoApplyFiltersLogConfig m <;> simp [h]
  cases extra with
  | none =>
      simp only [LogConfig.configure, Option.getD]
      rw [deep_merge_dicts_nil]
      exact hcase _
  | some e =>
      cases e with
      | nil =>
          simp only [LogConfig.configure, Option.getD]
          rw [if_neg (by simp [pyTruthy]), deep_merge_dicts_nil]
          exact hcase _
      | cons p rest =>
          simp only [LogConfig.configure, Option.getD]
          rw [if_pos (by simp [pyTruthy])]
          exact hcase _

/-! ## Sorting lemmas for the auto-filter pass -/

theorem charListLe_total (a b : List Char) :
    charListLe a b = true ∨ charListLe b a = true := by
  induction a generalizing b with
  | nil => exact Or.inl rfl
  | cons c cs ih =>
      cases b with
      | nil => exact Or.inr rfl
      | cons d ds =>
          by_cases h1 : c.toNat < d.toNat
          · exact Or.inl (by simp [charListLe, h1])
          · by_cases h2 : d.toNat < c.toNat
            · exact Or.inr (by simp [charListLe, h2])
            · rcases ih ds with h | h
              · exact Or.inl (by simp [charListLe, h1, h2, h])
              · exact Or.inr (by simp [charListLe, h1, h2, h])

theorem charListLe_trans (a b c : List Char) (hab : charListLe a b = true)
    (hbc : charListLe b c = true) : charListLe a c = true := by
  induction a generalizing b c with
  | nil => rfl
  | cons x xs ih =>
      cases b with
      | nil => simp [charListLe] at hab
      | cons y ys =>
          cases c with
          | nil => simp [charListLe] at hbc
          | cons z zs =>
              simp only [charListLe] at hab hbc ⊢
              have hab2 : x.toNat < y.toNat ∨
                  (x.toNat = y.toNat ∧ charListLe xs ys = true) := by
                by_cases h1 : x.toNat < y.toNat
                · exact Or.inl h1
                · by_cases h2 : y.toNat < x.toNat
                  · rw [if_neg h1, if_pos h2] at hab
                    cases hab
                  · exact Or.inr ⟨by omega, by rwa [if_neg h1, if_neg h2] at hab⟩
              have hbc2 : y.toNat < z.toNat ∨
                  (y.toNat = z.toNat ∧ charListLe ys zs = true) := by
                by_cases h1 : y.toNat < z.toNat
                · exact Or.inl h1
                · by_cases h2 : z.toNat < y.toNat
                  · rw [if_neg h1, if_pos h2] at hbc
                    cases hbc
                  · exact Or.inr ⟨by omega, by rwa [if_neg h1, if_neg h2] at hbc⟩
              rcases hab2 with h1 | ⟨h1, hr1⟩ <;> rcases hbc2 with h2 | ⟨h2, hr2⟩
              · rw [if_pos (by omega)]
              · rw [if_pos (by omega)]
              · rw [if_pos (by omega)]
              · rw [if_neg (by omega), if_neg (by omega)]
                exact ih ys zs hr1 hr2

theorem strLe_total (s t : String) (h : strLe s t = false) :
    strLe t s = true := by
  rcases charListLe_total s.data t.data with h2 | h2
  · rw [strLe] at h
    rw [h] at h2
    cases h2
  · exact h2

theorem strLe_trans (s t u : String) (h1 : strLe s t = true)
    (h2 : strLe t u = true) : strLe s u = true :=
  charListLe_trans s.data t.data u.data h1 h2

theorem insertSorted_perm (s : String) (l : List String) :
    List.Perm (insertSorted s l) (s :: l) := by
  induction l with
  | nil => rfl
  | cons t ts ih =>
      by_cases h : strLe s t
      · simp [insertSorted, h]
      · simp only [insertSorted, if_neg h]
        exact (ih.cons t).trans (List.Perm.swap s t ts)

theorem sortStrings_perm (l : List String) : List.Perm (sortStrings l) l := by
  induction l with
  | nil => rfl
  | cons s ss ih => exact (insertSorted_perm s (sortStrings ss)).trans (ih.cons s)

theorem insertSorted_sorted (s : String) (l : List String)
    (h : List.Sorted (fun a b => strLe a b = true) l) :
    List.Sorted (fun a b => strLe a b = true) (insertSorted s l) := by
  induction l with
  | nil => simp [insertSorted]
  | cons t ts ih =>
      rw [List.sorted_cons] at h
      by_cases hst : strLe s t = true
      · simp only [insertSorted, if_pos hst, List.sorted_cons]
        refine ⟨?_, h⟩
        intro b hb
        rcases List.mem_cons.mp hb with rfl | hbts
        · exact hst
        · exact strLe_trans s t b hst (h.1 b hbts)
      · simp only [insertSorted, if_neg hst, List.sorted_cons]
        refine ⟨?_, ih h.2⟩
        intro b hb
        have hb2 : b = s ∨ b ∈ ts := by
          have hmem := (insertSorted_perm s ts).mem_iff.mp hb
          simpa using hmem
        rcases hb2 with rfl | hbts
        · refine strLe_total _ _ ?_
          rcases Bool.eq_false_or_eq_true (strLe b t) with ht | hf
          · exact absurd ht hst
          · exact hf
        · exact h.1 b hbts

theorem sortStrings_sorted (l : List String) :
    List.Sorted (fun a b => strLe a b = true) (sortStrings l) := by
  induction l with
  | nil => simp [sortStrings]
  | cons s ss ih => exact insertSorted_sorted s (sortStrings ss) ih

theorem sortStrings_nodup (l : List String) (h : l.Nodup) :
    (sortStrings l).Nodup :=
  (sortStrings_perm l).nodup_iff.mpr h

theorem mem_sortStrings (n : String) (l : List String) :
    n ∈ sortStrings l ↔ n ∈ l :=
  (sortStrings_perm l).mem_iff

/-! ## Auto-filter pass lemmas -/

theorem alistGet_none_of_contains_false {α : Type} (d : List (String × α))
    (k : String) (h : alistContains d k = false) : alistGet d k = Option.none := by
  induction d with
  | nil => simp [alistGet]
  | cons p rest ih =>
      obtain ⟨k', v'⟩ := p
      by_cases hk : k' = k
      · simp [alistContains, hk] at h
      · simp only [alistContains, if_neg hk] at h
        simp [alistGet, hk, ih h]

theorem alistContains_true_of_get {α : Type} (d : List (String × α))
    (k : String) (v : α) (h : alistGet d k = some v) :
    alistContains d k = true := by
  induction d with
  | nil => simp [alistGet] at h
  | cons p rest ih =>
      obtain ⟨k', v'⟩ := p
      by_cases hk : k' = k
      · simp [alistContains, hk]
      · simp only [alistGet, if_neg hk] at h
        simp [alistContains, hk, ih h]

theorem mapHandlers_lookup (step : PyDict → Option PyDict) :
    ∀ (hs hs' : List (String × PyVal)), mapHandlers step hs = some hs' →
      (hs.map Prod.fst).Nodup →
      ∀ (k : String) (h0 : PyDict), (k, PyVal.dict h0) ∈ hs →
      ∃ h', step h0 = some h' ∧ alistGet hs' k = some (PyVal.dict h') := by
  intro hs
  induction hs with
  | nil =>
      intro hs' hmap hnd k h0 hmem
      cases hmem
  | cons p rest ih =>
      obtain ⟨k0, v0⟩ := p
      intro hs' hmap hnd k h0 hmem
      simp only [List.map_cons, List.nodup_cons] at hnd
      cases v0 with
      | dict hh =>
          simp only [mapHandlers] at hmap
          cases hstep : step hh with
          | none => rw [hstep] at hmap; simp at hmap
          | some hh' =>
              cases hrest : mapHandlers step rest with
              | none => rw [hstep, hrest] at hmap; simp at hmap
              | some rest' =>
                  rw [hstep, hrest] at hmap
                  simp only [Option.some.injEq] at hmap
                  subst hmap
                  rcases List.mem_cons.mp hmem with h1 | h2
                  · injection h1 with hk hv
                    subst hk
                    injection hv with hv2
                    subst hv2
                    exact ⟨hh', hstep, by simp [alistGet]⟩
                  · have hkne : k0 ≠ k := by
                      intro hk
                      subst hk
                      exact hnd.1 (List.mem_map.mpr ⟨(k0, PyVal.dict h0), h2, rfl⟩)
                    obtain ⟨h', hstep', hget⟩ := ih rest' hrest hnd.2 k h0 h2
                    exact ⟨h', hstep', by simp [alistGet, hkne, hget]⟩
      | str s => simp [mapHandlers] at hmap
      | int n => simp [mapHandlers] at hmap
      | bool b => simp [mapHandlers] at hmap
      | none => simp [mapHandlers] at hmap
      | list xs => simp [mapHandlers] at hmap
      | obj t => simp [mapHandlers] at hmap

theorem autoApplyFiltersWith_eq (step : List String → PyDict → Option PyDict)
    (config fs hs : PyDict)
    (hf : dictGet config "filters" = some (.dict fs))
    (hh : dictGet config "handlers" = some (.dict hs)) :
    autoApplyFiltersWith step config =
      (mapHandlers (step ((dictKeys fs).dedup)) hs).map
        (fun hs' => dictSet config "handlers" (.dict hs')) := by
  unfold autoApplyFiltersWith
  rw [if_neg (by
    simp [dictContains, alistContains_true_of_get _ _ _ hf,
      alistContains_true_of_get _ _ _ hh])]
  rw [hf, hh]
  cases hm : mapHandlers (step ((dictKeys fs).dedup)) hs <;> simp [hm]

theorem processHandlerExt_spec (allNames : List String) (h h' : PyDict)
    (hflag : pyTruthy (dictPopD h "auto_filters" (PyVal.bool true)).1 = true)
    (excluded : List String)
    (hex : setOfNames (dictPopD (dictPopD h "auto_filters" (PyVal.bool true)).2
        "exclude_filters" (PyVal.list [])).1 = some excluded)
    (hstep : processHandlerExt allNames h = some h') :
    ((candidateNames allNames excluded (declaredFilters h) ≠ [] ∨
        declaredFilters h ≠ []) →
      dictGet h' "filters" = some (.list (declaredFilters h ++
        (sortStrings (candidateNames allNames excluded
          (declaredFilters h))).map PyVal.str)))
    ∧ (candidateNames allNames excluded (declaredFilters h) = [] →
        declaredFilters h = [] → dictContains h "filters" = false →
        dictContains h' "filters" = false) := by
  have hgetp : dictGet (dictPopD (dictPopD h "auto_filters" (PyVal.bool true)).2
      "exclude_filters" (PyVal.list [])).2 "filters" = dictGet h "filters" :=
    (alistGet_pop_ne _ "exclude_filters" "filters" _ (by decide)).trans
      (alistGet_pop_ne _ "auto_filters" "filters" _ (by decide))
  have hcontp : dictContains (dictPopD (dictPopD h "auto_filters"
      (PyVal.bool true)).2 "exclude_filters" (PyVal.list [])).2 "filters"
      = dictContains h "filters" :=
    (alistContains_pop_ne _ "exclude_filters" "filters" _ (by decide)).trans
      (alistContains_pop_ne _ "auto_filters" "filters" _ (by decide))
  simp only [processHandlerExt] at hstep
  rw [if_neg (by simp [hflag]), hex, hgetp] at hstep
  cases hdecl : dictGet h "filters" with
  | none =>
      rw [hdecl] at hstep
      have hd0 : declaredFilters h = [] := by
        simp [declaredFilters, hdecl]
      simp only [Option.getD] at hstep
      rw [hd0]
      by_cases hc : (candidateNames allNames excluded []).isEmpty
      · rw [if_neg (by simp [hc])] at hstep
        have hcnil : candidateNames allNames excluded [] = [] :=
          List.isEmpty_iff.mp hc
        simp only [Option.some.injEq] at hstep
        subst hstep
        refine ⟨?_, ?_⟩
        · intro hne
          rcases hne with hne | hne
          · exact absurd hcnil hne
          · exact absurd rfl hne
        · intro _ _ hcont
          rw [hcontp]
          exact hcont
      · rw [if_pos (by simp at hc ⊢; tauto)] at hstep
        simp only [Option.some.injEq] at hstep
        subst hstep
        refine ⟨?_, ?_⟩
        · intro _
          exact alistGet_set_self _ "filters" _
        · intro hcnil
          rw [← List.isEmpty_iff] at hcnil
          exact absurd hcnil hc
  | some w =>
      rw [hdecl] at hstep
      cases w with
      | list xs =>
          have hd0 : declaredFilters h = xs := by
            simp [declaredFilters, hdecl]
          simp only [Option.getD] at hstep
          rw [hd0]
          by_cases hc : (candidateNames allNames excluded xs).isEmpty ∧
              xs.isEmpty
          · rw [if_neg (by simp [hc.1, hc.2])] at hstep
            have hcnil : candidateNames allNames excluded xs = [] :=
              List.isEmpty_iff.mp hc.1
            have hxnil : xs = [] := List.isEmpty_iff.mp hc.2
            simp only [Option.some.injEq] at hstep
            subst hstep
            refine ⟨?_, ?_⟩
            · intro hne
              rcases hne with hne | hne
              · exact absurd hcnil hne
              · exact absurd hxnil hne
            · intro _ _ hcont
              rw [hcontp]
              exact hcont
          · rw [if_pos (by
              rcases Decidable.not_and_iff_or_not.mp hc with hc1 | hc1 <;>
                simp at hc1 <;> simp [hc1])] at hstep
            simp only [Option.some.injEq] at hstep
            subst hstep
            refine ⟨?_, ?_⟩
            · intro _
              exact alistGet_set_self _ "filters" _
            · intro hcnil hxnil
              rw [← List.isEmpty_iff] at hcnil hxnil
              exact absurd ⟨hcnil, hxnil⟩ hc
      | str s =>
          have hd0 : declaredFilters h = [] := by
            simp [declaredFilters, hdecl]
          have hcont : dictContains h "filters" = true :=
            alistContains_true_of_get _ _ _ hdecl
          simp only [Option.getD] at hstep
          rw [hd0]
          by_cases hc : (candidateNames allNames excluded []).isEmpty
          · rw [if_neg (by simp [hc])] at hstep
            have hcnil : candidateNames allNames excluded [] = [] :=
              List.isEmpty_iff.mp hc
            simp only [Option.some.injEq] at hstep
            subst hstep
            refine ⟨?_, ?_⟩
            · intro hne
              rcases hne with hne | hne
              · exact absurd hcnil hne
              · exact absurd rfl hne
            · intro _ _ hcontf
              rw [hcont] at hcontf
              simp at hcontf
          · rw [if_pos (by simp at hc ⊢; tauto)] at hstep
            simp only [Option.some.injEq] at hstep
            subst hstep
            refine ⟨?_, ?_⟩
            · intro _
              exact alistGet_set_self _ "filters" _
            · intro hcnil
              rw [← List.isEmpty_iff] at hcnil
              exact absurd hcnil hc
      | int n =>
          have hd0 : declaredFilters h = [] := by
            simp [declaredFilters, hdecl]
          have hcont : dictContains h "filters" = true :=
            alistContains_true_of_get _ _ _ hdecl
          simp only [Option.getD] at hstep
          rw [hd0]
          by_cases hc : (candidateNames allNames excluded []).isEmpty
          · rw [if_neg (by simp [hc])] at hstep
            have hcnil : candidateNames allNames excluded [] = [] :=
              List.isEmpty_iff.mp hc
            simp only [Option.some.injEq] at hstep
            subst hstep
            refine ⟨?_, ?_⟩
            · intro hne
              rcases hne with hne | hne
              · exact absurd hcnil hne
              · exact absurd rfl hne
            · intro _ _ hcontf
              rw [hcont] at hcontf
              simp at hcontf
          · rw [if_pos (by simp at hc ⊢; tauto)] at hstep
            simp only [Option.some.injEq] at hstep
            subst hstep
            refine ⟨?_, ?_⟩
            · intro _
              exact alistGet_set_self _ "filters" _
            · intro hcnil
              rw [← List.isEmpty_iff] at hcnil
              exact absurd hcnil hc
      | bool b =>
          have hd0 : declaredFilters h = [] := by
            simp [declaredFilters, hdecl]
          have hcont : dictContains h "filters" = true :=
            alistContains_true_of_get _ _ _ hdecl
          simp only [Option.getD] at hstep
          rw [hd0]
          by_cases hc : (candidateNames allNames excluded []).isEmpty
          · rw [if_neg (by simp [hc])] at hstep
            have hcnil : candidateNames allNames excluded [] = [] :=
              List.isEmpty_iff.mp hc
            simp only [Option.some.injEq] at hstep
            subst hstep
            refine ⟨?_, ?_⟩
            · intro hne
              rcases hne with hne | hne
              · exact absurd hcnil hne
              · exact absurd rfl hne
            · intro _ _ hcontf
              rw [hcont] at hcontf
              simp at hcontf
          · rw [if_pos (by simp at hc ⊢; tauto)] at hstep
            simp only [Option.some.injEq] at hstep
            subst hstep
            refine ⟨?_, ?_⟩
            · intro _
              exact alistGet_set_self _ "filters" _
            · intro hcnil
              rw [← List.isEmpty_iff] at hcnil
              exact absurd hcnil hc
      | none =>
          have hd0 : declaredFilters h = [] := by
            simp [declaredFilters, hdecl]
          have hcont : dictContains h "filters" = true :=
            alistContains_true_of_get _ _ _ hdecl
          simp only [Option.getD] at hstep
          rw [hd0]
          by_cases hc : (candidateNames allNames excluded []).isEmpty
          · rw [if_neg (by simp [hc])] at hstep
            have hcnil : candidateNames allNames excluded [] = [] :=
              List.isEmpty_iff.mp hc
            simp only [Option.some.injEq] at hstep
            subst hstep
            refine ⟨?_, ?_⟩
            · intro hne
              rcases hne with hne | hne
              · exact absurd hcnil hne
              · exact absurd rfl hne
            · intro _ _ hcontf
              rw [hcont] at hcontf
              simp at hcontf
          · rw [if_pos (by simp at hc ⊢; tauto)] at hstep
            simp only [Option.some.injEq] at hstep
            subst hstep
            refine ⟨?_, ?_⟩
            · intro _
              exact alistGet_set_self _ "filters" _
            · intro hcnil
              rw [← List.isEmpty_iff] at hcnil
              exact absurd hcnil hc
      | dict d =>
          have hd0 : declaredFilters h = [] := by
            simp [declaredFilters, hdecl]
          have hcont : dictContains h "filters" = true :=
            alistContains_true_of_get _ _ _ hdecl
          simp only [Option.getD] at hstep
          rw [hd0]
          by_cases hc : (candidateNames allNames excluded []).isEmpty
          · rw [if_neg (by simp [hc])] at hstep
            have hcnil : candidateNames allNames excluded [] = [] :=
              List.isEmpty_iff.mp hc
            simp only [Option.some.injEq] at hstep
            subst hstep
            refine ⟨?_, ?_⟩
            · intro hne
              rcases hne with hne | hne
              · exact absurd hcnil hne
              · exact absurd rfl hne
            · intro _ _ hcontf
              rw [hcont] at hcontf
              simp at hcontf
          · rw [if_pos (by simp at hc ⊢; tauto)] at hstep
            simp only [Option.some.injEq] at hstep
            subst hstep
            refine ⟨?_, ?_⟩
            · intro _
              exact alistGet_set_self _ "filters" _
            · intro hcnil
              rw [← List.isEmpty_iff] at hcnil
              exact absurd hcnil hc
      | obj t =>
          have hd0 : declaredFilters h = [] := by
            simp [declaredFilters, hdecl]
          have hcont : dictContains h "filters" = true :=
            alistContains_true_of_get _ _ _ hdecl
          simp only [Option.getD] at hstep
          rw [hd0]
          by_cases hc : (candidateNames allNames excluded []).isEmpty
          · rw [if_neg (by simp [hc])] at hstep
            have hcnil : candidateNames allNames excluded [] = [] :=
              List.isEmpty_iff.mp hc
            simp only [Option.some.injEq] at hstep
            subst hstep
            refine ⟨?_, ?_⟩
            · intro hne
              rcases hne with hne | hne
              · exact absurd hcnil hne
              · exact absurd rfl hne
            · intro _ _ hcontf
              rw [hcont] at hcontf
              simp at hcontf
          · rw [if_pos (by simp at hc ⊢; tauto)] at hstep
            simp only [Option.some.injEq] at hstep
            subst hstep
            refine ⟨?_, ?_⟩
            · intro _
              exact alistGet_set_self _ "filters" _
            · intro hcnil
              rw [← List.isEmpty_iff] at hcnil
              exact absurd hcnil hc

/-- C3.  For a merged document whose `filters` and `handlers` keys hold
dicts, and any handler entry whose `auto_filters` flag is truthy (and whose
`exclude_filters` is a list of names): with candidates = registered filter
names minus excluded minus already-declared, the pass succeeds on that
handler and, in the returned document, the handler's final `filters` list is
the declared list in its original order followed by the candidates sorted
ascending; the appended candidates are sorted, duplicate-free and disjoint
from the declared names; and when the handler declared no filters and there
are no candidates, no `filters` key is added to a handler that had none. -/
theorem autoApplyFilters_handler_spec
    (config fs hs config' : PyDict) (hname : String) (h : PyDict)
    (excluded : List String)
    (hf : dictGet config "filters" = some (.dict fs))
    (hh : dictGet config "handlers" = some (.dict hs))
    (hnd : (hs.map Prod.fst).Nodup)
    (hres : autoApplyFilters config = some config')
    (hmem : (hname, PyVal.dict h) ∈ hs)
    (hflag : pyTruthy (dictPopD h "auto_filters" (PyVal.bool true)).1 = true)
    (hex : setOfNames (dictPopD (dictPopD h "auto_filters" (PyVal.bool true)).2
        "exclude_filters" (PyVal.list [])).1 = some excluded) :
    ∃ hs' h',
      dictGet config' "handlers" = some (.dict hs')
      ∧ alistGet hs' hname = some (.dict h')
      ∧ ((candidateNames ((dictKeys fs).dedup) excluded (declaredFilters h) ≠ []
            ∨ declaredFilters h ≠ []) →
          dictGet h' "filters" = some (.list (declaredFilters h ++
            (sortStrings (candidateNames ((dictKeys fs).dedup) excluded
              (declaredFilters h))).map PyVal.str)))
      ∧ (candidateNames ((dictKeys fs).dedup) excluded (declaredFilters h) = [] →
          declaredFilters h = [] → dictContains h "filters" = false →
          dictContains h' "filters" = false)
      ∧ List.Sorted (fun a b => strLe a b = true)
          (sortStrings (candidateNames ((dictKeys fs).dedup) excluded
            (declaredFilters h)))
      ∧ (sortStrings (candidateNames ((dictKeys fs).dedup) excluded
          (declaredFilters h))).Nodup
      ∧ ∀ n ∈ sortStrings (candidateNames ((dictKeys fs).dedup) excluded
          (declaredFilters h)), pyStrMem n (declaredFilters h) = false := by
  rw [show autoApplyFilters config = autoApplyFiltersWith processHandlerExt config
      from rfl,
    autoApplyFiltersWith_eq processHandlerExt config fs hs hf hh] at hres
  cases hm : mapHandlers (processHandlerExt ((dictKeys fs).dedup)) hs with
  | none =>
      rw [hm] at hres
      simp at hres
  | some hs' =>
      rw [hm] at hres
      have hres2 : dictSet config "handlers" (PyVal.dict hs') = config' := by
        simpa using hres
      obtain ⟨h', hstep, hget⟩ :=
        mapHandlers_lookup (processHandlerExt ((dictKeys fs).dedup)) hs hs' hm
          hnd hname h hmem
      have hspec := processHandlerExt_spec ((dictKeys fs).dedup) h h' hflag
        excluded hex hstep
      refine ⟨hs', h', ?_, hget, hspec.1, hspec.2, sortStrings_sorted _, ?_, ?_⟩
      · rw [← hres2]
        exact alistGet_set_self config "handlers" (PyVal.dict hs')
      · exact sortStrings_nodup _
          (List.Nodup.filter _ (List.nodup_dedup (dictKeys fs)))
      · intro n hn
        have hmemc := (mem_sortStrings n _).mp hn
        have hpred := List.of_mem_filter hmemc
        simp only [decide_eq_true_eq, not_and, Decidable.not_not] at hpred
        simp only [Bool.not_eq_true] at hpred
        rcases hpred with ⟨-, h2⟩
        exact h2

/-- Concrete document for the C3 witness: three registered filters and a
handler that already declares `filters = ["a"]`. -/
def c3Fs : PyDict := [("a", .dict []), ("b", .dict []), ("c", .dict [])]

/-- The C3 witness handler entry. -/
def c3H : PyDict := [("class", .str "X"), ("filters", .list [.str "a"])]

/-- The C3 witness `handlers` section. -/
def c3Hs : PyDict := [("h2", .dict c3H)]

/-- The C3 witness document. -/
def c3Config : PyDict := [("filters", .dict c3Fs), ("handlers", .dict c3Hs)]

/-- The document the auto-filter pass returns for `c3Config`. -/
def c3Result : PyDict :=
  [("filters", .dict c3Fs),
   ("handlers", .dict
     [("h2", .dict
       [("class", .str "X"),
        ("filters", .list [.str "a", .str "b", .str "c"])])])]

/-- Witness for C3: at the concrete document, the handler that declared
`["a"]` ends with `["a", "b", "c"]` — the declared name first, the two
candidates appended in sorted order. -/
theorem autoApplyFilters_handler_spec_witness :
    ((dictGet c3Result "handlers").bind (fun v =>
        match v with
        | PyVal.dict hs2 => alistGet hs2 "h2"
        | _ => Option.none)).bind (fun v =>
        match v with
        | PyVal.dict h2 => dictGet h2 "filters"
        | _ => Option.none)
      = some (PyVal.list (declaredFilters c3H ++
          (sortStrings (candidateNames ((dictKeys c3Fs).dedup) []
            (declaredFilters c3H))).map PyVal.str)) := by
  obtain ⟨hs', h', hhs, hget, hfil, -, -, -, -⟩ :=
    autoApplyFilters_handler_spec c3Config c3Fs c3Hs c3Result "h2" c3H []
      rfl rfl (by simp [c3Hs]) rfl (by
        rw [show c3Hs = [("h2", PyVal.dict c3H)] from rfl]
        exact List.mem_singleton.mpr rfl) rfl rfl
  rw [hhs]
  simp only [Option.bind]
  rw [hget]
  simp only [Option.bind]
  exact hfil (Or.inr (by
    rw [show declaredFilters c3H = [PyVal.str "a"] from rfl]
    exact List.cons_ne_nil _ _))

/-! ## Claim C5: policy keys after the auto-filter pass -/

theorem alistSet_set_same {α : Type} (d : List (String × α)) (k : String)
    (y x : α) : alistSet (alistSet d k y) k x = alistSet d k x := by
  induction d with
  | nil => simp [alistSet]
  | cons p rest ih =>
      obtain ⟨k', v'⟩ := p
      by_cases hk : k' = k
      · simp [alistSet, hk]
      · simp [alistSet, hk, ih]

theorem alistPopD_keys_sublist {α : Type} (d : List (String × α)) (k : String)
    (dft : α) :
    List.Sublist ((alistPopD d k dft).2.map Prod.fst) (d.map Prod.fst) := by
  induction d with
  | nil => simp [alistPopD]
  | cons p rest ih =>
      obtain ⟨k', v'⟩ := p
      by_cases hk : k' = k
      · simp only [alistPopD, if_pos hk, List.map_cons]
        exact List.sublist_cons_self k' _
      · simp only [alistPopD, if_neg hk, List.map_cons]
        exact ih.cons₂ k'

theorem alistPopD_keys_nodup {α : Type} (d : List (String × α)) (k : String)
    (dft : α) (h : (d.map Prod.fst).Nodup) :
    ((alistPopD d k dft).2.map Prod.fst).Nodup :=
  (alistPopD_keys_sublist d k dft).nodup h

/-- After a successful handler step, the handler is either the original entry
with `auto_filters` popped (opt-out case), or the twice-popped entry with at
most its `filters` key rewritten (auto case). -/
theorem processHandlerExt_shape (allNames : List String) (h h' : PyDict)
    (hstep : processHandlerExt allNames h = some h') :
    (pyTruthy (dictPopD h "auto_filters" (PyVal.bool true)).1 = false
      ∧ h' = (dictPopD h "auto_filters" (PyVal.bool true)).2)
    ∨ (pyTruthy (dictPopD h "auto_filters" (PyVal.bool true)).1 = true
      ∧ (h' = (dictPopD (dictPopD h "auto_filters" (PyVal.bool true)).2
            "exclude_filters" (PyVal.list [])).2
        ∨ ∃ v, h' = dictSet (dictPopD (dictPopD h "auto_filters"
            (PyVal.bool true)).2 "exclude_filters" (PyVal.list [])).2
            "filters" v)) := by
  simp only [processHandlerExt] at hstep
  by_cases hflag : pyTruthy (dictPopD h "auto_filters" (PyVal.bool true)).1 = true
  · rw [if_neg (by simp [hflag])] at hstep
    cases hset : setOfNames (dictPopD (dictPopD h "auto_filters"
        (PyVal.bool true)).2 "exclude_filters" (PyVal.list [])).1 with
    | none => rw [hset] at hstep; cases hstep
    | some excluded =>
        rw [hset] at hstep
        refine Or.inr ⟨hflag, ?_⟩
        cases hV : (dictGet (dictPopD (dictPopD h "auto_filters"
            (PyVal.bool true)).2 "exclude_filters" (PyVal.list [])).2
            "filters").getD (PyVal.list []) <;>
          rw [hV] at hstep <;>
          repeat' split at hstep
        all_goals
          first
          | exact Option.noConfusion hstep
          | (simp only [Option.some.injEq] at hstep
             subst hstep
             first
             | exact Or.inl rfl
             | exact Or.inr ⟨_, rfl⟩
             | exact Or.inr ⟨_, alistSet_set_same _ "filters" (PyVal.list []) _⟩)
  · rw [if_pos (by simp [hflag])] at hstep
    simp only [Option.some.injEq] at hstep
    subst hstep
    exact Or.inl ⟨by simpa using hflag, rfl⟩

/-- Policy keys after one successful handler step: `auto_filters` is always
popped; `exclude_filters` is popped when the flag was truthy; an opt-out
handler is exactly the original entry minus `auto_filters` (so it keeps any
`exclude_filters`). -/
theorem processHandlerExt_policy (allNames : List String) (h h' : PyDict)
    (hndh : (h.map Prod.fst).Nodup)
    (hstep : processHandlerExt allNames h = some h') :
    dictContains h' "auto_filters" = false
    ∧ (pyTruthy (dictPopD h "auto_filters" (PyVal.bool true)).1 = true →
        dictContains h' "exclude_filters" = false)
    ∧ (pyTruthy (dictPopD h "auto_filters" (PyVal.bool true)).1 = false →
        h' = (dictPopD h "auto_filters" (PyVal.bool true)).2) := by
  rcases processHandlerExt_shape allNames h h' hstep with ⟨hfl, rfl⟩ | ⟨hfl, hsh⟩
  · refine ⟨alistContains_pop_self h "auto_filters" _ hndh, ?_, fun _ => rfl⟩
    intro ht
    rw [hfl] at ht
    exact Bool.noConfusion ht
  · have hnd1 := alistPopD_keys_nodup h "auto_filters" (PyVal.bool true) hndh
    have hA2 : dictContains (dictPopD (dictPopD h "auto_filters"
        (PyVal.bool true)).2 "exclude_filters" (PyVal.list [])).2
        "auto_filters" = false :=
      (alistContains_pop_ne _ "exclude_filters" "auto_filters" _
        (by decide)).trans (alistContains_pop_self h "auto_filters" _ hndh)
    have hE2 : dictContains (dictPopD (dictPopD h "auto_filters"
        (PyVal.bool true)).2 "exclude_filters" (PyVal.list [])).2
        "exclude_filters" = false :=
      alistContains_pop_self _ "exclude_filters" _ hnd1
    rcases hsh with rfl | ⟨v, rfl⟩
    · exact ⟨hA2, fun _ => hE2, fun hf => by
        rw [hfl] at hf
        exact Bool.noConfusion hf⟩
    · refine ⟨?_, fun _ => ?_, fun hf => by
        rw [hfl] at hf
        exact Bool.noConfusion hf⟩
      · exact (alistContains_set_ne _ "filters" "auto_filters" v
          (by decide)).trans hA2
      · exact (alistContains_set_ne _ "filters" "exclude_filters" v
          (by decide)).trans hE2

/-- C5 (amended).  For every processed document and every handler entry: the
returned entry never contains `auto_filters`; when the handler's
`auto_filters` flag was truthy, `exclude_filters` is stripped as well; but a
handler that opted out (falsy flag) is returned exactly as the original
entry minus the popped `auto_filters` key, so it retains any
`exclude_filters` key. -/
theorem autoApplyFilters_policy_spec
    (config fs hs config' : PyDict) (hname : String) (h : PyDict)
    (hf : dictGet config "filters" = some (.dict fs))
    (hh : dictGet config "handlers" = some (.dict hs))
    (hnd : (hs.map Prod.fst).Nodup)
    (hndh : (h.map Prod.fst).Nodup)
    (hres : autoApplyFilters config = some config')
    (hmem : (hname, PyVal.dict h) ∈ hs) :
    ∃ hs' h',
      dictGet config' "handlers" = some (.dict hs')
      ∧ alistGet hs' hname = some (.dict h')
      ∧ dictContains h' "auto_filters" = false
      ∧ (pyTruthy (dictPopD h "auto_filters" (PyVal.bool true)).1 = true →
          dictContains h' "exclude_filters" = false)
      ∧ (pyTruthy (dictPopD h "auto_filters" (PyVal.bool true)).1 = false →
          h' = (dictPopD h "auto_filters" (PyVal.bool true)).2) := by
  rw [show autoApplyFilters config = autoApplyFiltersWith processHandlerExt config
      from rfl,
    autoApplyFiltersWith_eq processHandlerExt config fs hs hf hh] at hres
  cases hm : mapHandlers (processHandlerExt ((dictKeys fs).dedup)) hs with
  | none =>
      rw [hm] at hres
      simp at hres
  | some hs' =>
      rw [hm] at hres
      have hres2 : dictSet config "handlers" (PyVal.dict hs') = config' := by
        simpa using hres
      obtain ⟨h', hstep, hget⟩ :=
        mapHandlers_lookup (processHandlerExt ((dictKeys fs).dedup)) hs hs' hm
          hnd hname h hmem
      have hpol := processHandlerExt_policy ((dictKeys fs).dedup) h h' hndh hstep
      refine ⟨hs', h', ?_, hget, hpol.1, hpol.2.1, hpol.2.2⟩
      rw [← hres2]
      exact alistGet_set_self config "handlers" (PyVal.dict hs')

/-- The C5 counterexample handler: it opts out of auto filters and names an
excluded filter. -/
def c5H : PyDict :=
  [("auto_filters", .bool false), ("exclude_filters", .list [.str "x"])]

/-- The C5 counterexample `handlers` section. -/
def c5Hs : PyDict := [("h", .dict c5H)]

/-- The C5 counterexample document. -/
def c5Doc : PyDict := [("filters", .dict []), ("handlers", .dict c5Hs)]

/-- The document the auto-filter pass returns for `c5Doc`. -/
def c5Result : PyDict :=
  [("filters", .dict []),
   ("handlers", .dict [("h", .dict [("exclude_filters", .list [.str "x"])])])]

/-- Whether some handler entry of the processed `c5Doc` still contains an
`exclude_filters` key. -/
def c5Observe : Bool :=
  match autoApplyFilters c5Doc with
  | some d =>
      match dictGet d "handlers" with
      | some (.dict hs2) => hs2.any (fun p =>
          match p.2 with
          | .dict h2 => dictContains h2 "exclude_filters"
          | _ => false)
      | _ => false
  | _ => false

/-- Counterexample to C5 as stated: after the auto-filter pass on `c5Doc`,
the opted-out handler still contains its `exclude_filters` key, so the
policy keys are not stripped from every handler. -/
theorem autoApplyFilters_keeps_exclude_on_optout : c5Observe = true := rfl

/-- Witness for the amended C5: at the concrete opted-out handler, the pass
returns the entry with `auto_filters` removed and `exclude_filters` kept. -/
theorem autoApplyFilters_policy_spec_witness :
    ((dictGet c5Result "handlers").bind (fun v =>
        match v with
        | PyVal.dict hs2 => alistGet hs2 "h"
        | _ => Option.none))
      = some (PyVal.dict [("exclude_filters", PyVal.list [PyVal.str "x"])]) := by
  obtain ⟨hs', h', hhs, hget, -, -, hopt⟩ :=
    autoApplyFilters_policy_spec c5Doc [] c5Hs c5Result "h" c5H rfl rfl
      (by decide) (by decide) rfl (by
        rw [show c5Hs = [("h", PyVal.dict c5H)] from rfl]
        exact List.mem_singleton.mpr rfl)
  rw [hhs]
  simp only [Option.bind]
  rw [hget, hopt rfl]
  rfl

/-! ## Claim C7: the custom-config-file loader -/

/-- C7.  For every path: a missing file yields the empty mapping without
error; an existing file whose parse is a non-empty non-mapping value raises
`InvalidConfigFileError`, whose message names the given path; an empty or
blank file (parse result `None`) yields the empty mapping. -/
theorem loadCustomConfigFile_spec (p : String) (parsed : Option PyVal)
    (v : PyVal) :
    loadCustomConfigFile p false parsed = .ok []
    ∧ loadCustomConfigFile p true Option.none = .ok []
    ∧ (isDict v = false → pyTruthy v = true →
        loadCustomConfigFile p true (some v) =
          .invalidConfigFile (invalidConfigFileMessage p))
    ∧ (∃ pre post, invalidConfigFileMessage p = pre ++ p ++ post) := by
  refine ⟨rfl, rfl, ?_, ?_⟩
  · intro hnd _
    cases v <;> simp [isDict] at hnd <;> rfl
  · refine ⟨"File " ++ singleQuote, singleQuote ++ " is not a valid yaml file", ?_⟩
    simp [invalidConfigFileMessage, String.append_assoc]

/-- Witness for C7 at a concrete path and a concrete non-mapping parse. -/
theorem loadCustomConfigFile_spec_witness :
    loadCustomConfigFile "log.yml" false Option.none = .ok []
    ∧ loadCustomConfigFile "log.yml" true
        (some (PyVal.list [PyVal.str "not", PyVal.str "a", PyVal.str "dict"]))
      = .invalidConfigFile (invalidConfigFileMessage "log.yml") := by
  refine ⟨(loadCustomConfigFile_spec "log.yml" Option.none PyVal.none).1, ?_⟩
  exact (loadCustomConfigFile_spec "log.yml" Option.none
    (PyVal.list [PyVal.str "not", PyVal.str "a", PyVal.str "dict"])).2.2.1
    (by decide) (by decide)

/-! ## Claim C8: builtin registration -/

/-- C8.  `register_builtin(n)` succeeds exactly when the builtin module for
`n` exposes exactly one eligible provider class (a proper `LogContext`
subclass); it then instantiates that class with no arguments and registers
it under `n`.  A missing module fails with the `ValueError` naming the
builtin; zero eligible classes fail with the not-found error; several
eligible classes fail with the ambiguity error; every failure returns an
error and registers nothing. -/
theorem registerBuiltin_spec (reg : Registry)
    (modules : String → Option (List PyClass)) (n : String) :
    (modules (n ++ "_context") = Option.none →
      registerBuiltin reg modules n = .error (.valueError
        ("Builtin " ++ singleQuote ++ n ++ singleQuote ++ " not found")))
    ∧ (∀ members, modules (n ++ "_context") = some members →
        (eligibleContexts members = [] →
          registerBuiltin reg modules n =
            .error (.exception "Not found context with this name"))
        ∧ (∀ c, eligibleContexts members = [c] →
            registerBuiltin reg modules n =
              .ok (registerCtx reg n c.instantiate))
        ∧ (∀ c1 c2 cs, eligibleContexts members = c1 :: c2 :: cs →
            registerBuiltin reg modules n =
              .error (.exception "Multiple contexts found with this name")))
    ∧ (∀ reg', registerBuiltin reg modules n = .ok reg' →
        ∃ members c, modules (n ++ "_context") = some members
          ∧ eligibleContexts members = [c]
          ∧ reg' = registerCtx reg n c.instantiate) := by
  have h1 : modules (n ++ "_context") = Option.none →
      registerBuiltin reg modules n = .error (.valueError
        ("Builtin " ++ singleQuote ++ n ++ singleQuote ++ " not found")) := by
    intro hmod
    simp [registerBuiltin, hmod]
  have h2 : ∀ members, modules (n ++ "_context") = some members →
      (eligibleContexts members = [] →
        registerBuiltin reg modules n =
          .error (.exception "Not found context with this name"))
      ∧ (∀ c, eligibleContexts members = [c] →
          registerBuiltin reg modules n =
            .ok (registerCtx reg n c.instantiate))
      ∧ (∀ c1 c2 cs, eligibleContexts members = c1 :: c2 :: cs →
          registerBuiltin reg modules n =
            .error (.exception "Multiple contexts found with this name")) := by
    intro members hmod
    refine ⟨?_, ?_, ?_⟩
    · intro helig
      simp [registerBuiltin, hmod, helig]
    · intro c helig
      simp [registerBuiltin, hmod, helig]
    · intro c1 c2 cs helig
      simp [registerBuiltin, hmod, helig]
  refine ⟨h1, h2, ?_⟩
  intro reg' hok
  cases hmod : modules (n ++ "_context") with
  | none =>
      rw [h1 hmod] at hok
      cases hok
  | some members =>
      cases helig : eligibleContexts members with
      | nil =>
          rw [(h2 members hmod).1 helig] at hok
          cases hok
      | cons c cs =>
          cases cs with
          | nil =>
              rw [(h2 members hmod).2.1 c helig] at hok
              simp only [Except.ok.injEq] at hok
              exact ⟨members, c, rfl, helig, hok.symm⟩
          | cons c2 cs2 =>
              rw [(h2 members hmod).2.2 c c2 cs2 helig] at hok
              cases hok

/-- Concrete builtin class for the C8 witness (a proper subclass,
instantiated with no arguments). -/
def c8GoodClass : PyClass :=
  { className := "RequestIdContext"
    isLogContextSubclass := true
    isLogContextItself := false
    instantiate := RequestIdContext "uuid-1" }

/-- Concrete builtin namespace for the C8 witness: one module with the base
class and one eligible subclass; every other module name is missing. -/
def c8Modules : String → Option (List PyClass) := fun m =>
  if m = "request_id_context" then
    some [{ className := "LogContext", isLogContextSubclass := true,
            isLogContextItself := true,
            instantiate := RequestIdContext "unused" },
          c8GoodClass]
  else Option.none

/-- Witness for C8: the single eligible class is instantiated and registered
under the builtin name, and a missing module fails with the naming
`ValueError`. -/
theorem registerBuiltin_spec_witness :
    registerBuiltin [] c8Modules "request_id" =
      .ok (registerCtx [] "request_id" c8GoodClass.instantiate)
    ∧ registerBuiltin [] c8Modules "nope" = .error (.valueError
        ("Builtin " ++ singleQuote ++ "nope" ++ singleQuote ++ " not found")) := by
  constructor
  · exact ((registerBuiltin_spec [] c8Modules "request_id").2.1 _ rfl).2.1
      c8GoodClass rfl
  · exact (registerBuiltin_spec [] c8Modules "nope").1 rfl

/-! ## Claim C9: per-provider extraction -/

/-- C9.  Extraction is total (these are Lean functions, so no run can
raise).  For every request: a present matching header (matched
case-insensitively) is returned as is; an absent header makes the
correlation-, request- and trace-id providers return the freshly generated
token of that call, so two requests with distinct generated tokens get
distinct values; the user provider reads `request.state.user_id` and falls
back to its fixed default, never to a generated token. -/
theorem extract_spec (hdrs st : List (String × String)) (fresh d v : String) :
    (headersGet hdrs "x-correlation-id" = some v →
      correlationExtract fresh ⟨hdrs, st⟩ = v)
    ∧ (headersGet hdrs "x-correlation-id" = Option.none →
      correlationExtract fresh ⟨hdrs, st⟩ = fresh)
    ∧ (headersGet hdrs "x-request-id" = Option.none →
      requestIdExtract fresh ⟨hdrs, st⟩ = fresh)
    ∧ (headersGet hdrs (pyLower "X-Trace-Id") = Option.none →
      traceIdExtract "X-Trace-Id" fresh ⟨hdrs, st⟩ = fresh)
    ∧ (∀ k rest, pyLower k = "x-correlation-id" →
        headersGet ((k, v) :: rest) "x-correlation-id" = some v)
    ∧ (stateGet st "user_id" = some v → userIdExtract d ⟨hdrs, st⟩ = v)
    ∧ (stateGet st "user_id" = Option.none → userIdExtract d ⟨hdrs, st⟩ = d)
    ∧ (∀ hdrs2 st2 fresh2, fresh ≠ fresh2 →
        headersGet hdrs "x-correlation-id" = Option.none →
        headersGet hdrs2 "x-correlation-id" = Option.none →
        correlationExtract fresh ⟨hdrs, st⟩ ≠
          correlationExtract fresh2 ⟨hdrs2, st2⟩) := by
  refine ⟨?_, ?_, ?_, ?_, ?_, ?_, ?_, ?_⟩
  · intro hsome
    simp [correlationExtract, hsome]
  · intro hnone
    simp [correlationExtract, hnone]
  · intro hnone
    simp [requestIdExtract, hnone]
  · intro hnone
    simp [traceIdExtract, hnone]
  · intro k rest hk
    simp only [headersGet]
    rw [if_pos (by rw [hk]; rfl)]
  · intro hsome
    simp [userIdExtract, hsome]
  · intro hnone
    simp [userIdExtract, hnone]
  · intro hdrs2 st2 fresh2 hne h1 h2
    simp only [correlationExtract, h1, h2, Option.getD]
    exact hne

/-- Witness for C9: a mixed-case header is matched and returned; with no
header the generated token is used, and two calls with distinct tokens give
distinct values; the user provider returns its fixed default. -/
theorem extract_spec_witness :
    correlationExtract "uuid-1" ⟨[("x-CoRreLation-iD", "abc-123")], []⟩ = "abc-123"
    ∧ correlationExtract "uuid-1" ⟨[], []⟩ = "uuid-1"
    ∧ userIdExtract "anonymous" ⟨[], []⟩ = "anonymous"
    ∧ correlationExtract "uuid-1" ⟨[], []⟩ ≠ correlationExtract "uuid-2" ⟨[], []⟩ := by
  refine ⟨?_, ?_, ?_, ?_⟩
  · exact (extract_spec [("x-CoRreLation-iD", "abc-123")] [] "uuid-1" "-"
      "abc-123").1
      ((extract_spec [] [] "uuid-1" "-" "abc-123").2.2.2.2.1
        "x-CoRreLation-iD" [] (by decide))
  · exact (extract_spec [] [] "uuid-1" "-" "x").2.1 rfl
  · exact (extract_spec [] [] "u" "anonymous" "x").2.2.2.2.2.2.1 rfl
  · exact (extract_spec [] [] "uuid-1" "-" "x").2.2.2.2.2.2.2 [] [] "uuid-2"
      (by decide) rfl rfl

/-! ## Claim C10: re-registration keeps iteration order -/

/-- C10.  Registering a provider under an already-registered name replaces
the stored provider but keeps the registry's key list (hence iteration
order) unchanged: lookups of other names are untouched, the format strings
built from the keys are identical, and the name order of the generated
filter configuration and middleware map is identical. -/
theorem register_preserves_order (reg : Registry) (n : String)
    (p : LogContext) (ty : FormatType) (hin : alistContains reg n = true) :
    (registerCtx reg n p).map Prod.fst = reg.map Prod.fst
    ∧ registryGet (registerCtx reg n p) n = some p
    ∧ (∀ m, m ≠ n → registryGet (registerCtx reg n p) m = registryGet reg m)
    ∧ buildFormat ((registerCtx reg n p).map Prod.fst) ty =
        buildFormat (reg.map Prod.fst) ty
    ∧ (createFilterConfig (registerCtx reg n p)).map Prod.fst =
        (createFilterConfig reg).map Prod.fst
    ∧ (getAllMiddlewares (registerCtx reg n p)).map Prod.fst =
        (getAllMiddlewares reg).map Prod.fst := by
  have hkeys : (registerCtx reg n p).map Prod.fst = reg.map Prod.fst :=
    alistSet_keys_of_contains reg n p hin
  have hfc : ∀ r : Registry, (createFilterConfig r).map Prod.fst =
      (r.map Prod.fst).map (fun s => s ++ "_filter") := by
    intro r
    simp [createFilterConfig, List.map_map]
  have hmw : ∀ r : Registry, (getAllMiddlewares r).map Prod.fst =
      r.map Prod.fst := by
    intro r
    simp [getAllMiddlewares]
  refine ⟨hkeys, alistGet_set_self reg n p,
    fun m hm => alistGet_set_ne reg n m p hm, by rw [hkeys], ?_, ?_⟩
  · rw [hfc, hfc, hkeys]
  · rw [hmw, hmw, hkeys]

/-- Concrete registry for the C10 witness. -/
def c10Reg : Registry :=
  [("correlation_id", CorrelationIdContext "u1"), ("user_id", UserIdContext "anonymous")]

/-- The replacement provider for the C10 witness. -/
def c10New : LogContext := CorrelationIdContext "u2"

/-- Witness for C10: re-registering `correlation_id` keeps the key order
`["correlation_id", "user_id"]` and stores the new provider. -/
theorem register_preserves_order_witness :
    (registerCtx c10Reg "correlation_id" c10New).map Prod.fst =
      ["correlation_id", "user_id"]
    ∧ registryGet (registerCtx c10Reg "correlation_id" c10New)
        "correlation_id" = some c10New := by
  have h := register_preserves_order c10Reg "correlation_id" c10New
    FormatType.standard (by decide)
  exact ⟨h.1.trans rfl, h.2.1⟩

/-! ## Claim C1: middleware reset behaviour -/

/-- The C1 provider instance: the correlation context with the call's
generated token. -/
def c1Ctx : LogContext := CorrelationIdContext "generated-uuid"

/-- The C1 request, carrying a correlation header. -/
def c1Req : Request := ⟨[("x-correlation-id", "abc-123")], []⟩

/-- Counterexample to C1 as stated: when the downstream chain raises, the
middleware returns control with the slot still holding the extracted value,
not the provider's default — the reset is not run on the exception path. -/
theorem dispatch_no_reset_on_exception :
    (dispatch c1Ctx c1Req (.failure "boom")).slot = "abc-123"
    ∧ c1Ctx.defaultValue = "-"
    ∧ (dispatch c1Ctx c1Req (.failure "boom")).slot ≠ c1Ctx.defaultValue := by
  exact ⟨rfl, rfl, by decide⟩

/-- C1 (amended).  For every provider and request: on the success path the
middleware decorates the response, resets the slot to the provider's
default and stores the extracted value on the request state; on the
exception path the exception propagates unmodified and the slot keeps the
extracted value (the statements after `await call_next` do not run, so
`current()` returns the default only after successful requests). -/
theorem dispatch_reset_spec (ctx : LogContext) (req : Request)
    (hdrs : List (String × String)) (e : String) :
    (dispatch ctx req (.success hdrs)).slot = ctx.defaultValue
    ∧ (dispatch ctx req (.success hdrs)).outcome =
        .success (ctx.prepareResponse hdrs (ctx.extractFromRequest req))
    ∧ (dispatch ctx req (.success hdrs)).requestStateValue =
        ctx.extractFromRequest req
    ∧ (dispatch ctx req (.failure e)).outcome = .failure e
    ∧ (dispatch ctx req (.failure e)).slot = ctx.extractFromRequest req :=
  ⟨rfl, rfl, rfl, rfl, rfl⟩

/-! ## Claim C6: `configure(apply=false)` effects and retained state -/

/-- Extra document injecting one filter name, used against C6. -/
def c6Extra : PyDict := [("filters", PyVal.dict [("zz", PyVal.dict [])])]

/-- A fresh configurator state (empty heap, no cached base). -/
def c6State0 : ConfiguratorState := ⟨[], Option.none⟩

/-- The `filters` value of the `console` handler in the document returned by
a second, argument-free `configure` call made after a first call that
passed `c6Extra`. -/
def c6SecondCallConsoleFilters : Option HVal :=
  match configureH [] c6State0 [] (some c6Extra) false 30 with
  | some (s1, _, _) =>
      match configureH [] s1 [] Option.none false 30 with
      | some (s2, r2, _) =>
          hGetPath s2.heap r2 ["handlers", "console", "filters"]
      | Option.none => Option.none
  | Option.none => Option.none

/-- The `filters` value of the `console` handler in the document returned by
the same argument-free `configure` call made on a fresh configurator. -/
def c6FreshCallConsoleFilters : Option HVal :=
  match configureH [] c6State0 [] Option.none false 30 with
  | some (s2, r2, _) =>
      hGetPath s2.heap r2 ["handlers", "console", "filters"]
  | Option.none => Option.none

/-- Counterexample to C6 as stated: after `configure(extra={"filters":
{"zz": {}}}, apply=False)`, a later plain `configure(apply=False)` on the
same configurator returns a console handler carrying the filter `"zz"`
injected by the earlier call, while the identical call on a fresh
configurator returns a console handler with no `filters` key at all — the
later call observes in-place mutations the earlier call made to the cached
base document. -/
theorem configure_observes_earlier_mutation :
    c6SecondCallConsoleFilters = some (HVal.list [HVal.str "zz"])
    ∧ c6FreshCallConsoleFilters = Option.none :=
  ⟨rfl, rfl⟩

/-- C6 (amended).  Every `configure(apply=false)` call performs no backend
effect; but the configurator caches the generated base document and the
auto-filter pass mutates its handler entries in place, so the document is
not recomputed from scratch each call and a later `configure` call can
observe mutations made during an earlier one (witnessed by the concrete
two-call run). -/
theorem configure_no_backend_write_but_state_retained :
    (∀ (names : List String) (st : ConfiguratorState) (modelExtra : PyDict)
        (extra : Option PyDict) (fuel : Nat),
      configEffects (configureH names st modelExtra extra false fuel) = [])
    ∧ c6SecondCallConsoleFilters = some (HVal.list [HVal.str "zz"])
    ∧ c6FreshCallConsoleFilters = Option.none := by
  refine ⟨?_, rfl, rfl⟩
  intro names st modelExtra extra fuel
  simp only [configureH]
  repeat' split
  all_goals first
  | contradiction
  | simp [configEffects]

end ZeeApi
